import Mathlib

/-!
Verification of the IPAM reconciliation controller
(`kube-controllers/pkg/controllers/node/ipam.go`) against its
natural-language specification.

Go maps are embedded as association lists (`List (κ × α)`) with the
helpers `aget` / `aset` / `adel`; Go `*allocation` pointers shared between
the caches are embedded as an id-keyed heap (`heap : List (AllocId ×
Allocation)`) with every cache holding ids, so that an in-place mutation
of an allocation is a single heap update visible through every index.
External collaborators (Kubernetes listers and clients, the IPAM client,
CIDR arithmetic) are supplied as oracle functions in an `Env` record:
the embedding keeps the controller's own control flow exact and treats
each external call's result as an input.
-/

namespace CalicoIpam

/-- Lookup in an association list embedding a Go map. -/
def aget [DecidableEq κ] : List (κ × α) → κ → Option α
  | [], _ => none
  | (k1, v) :: rest, k => if k1 = k then some v else aget rest k

/-- Go map assignment `m[k] = v`: replace the binding if present, else append. -/
def aset [DecidableEq κ] : List (κ × α) → κ → α → List (κ × α)
  | [], k, v => [(k, v)]
  | (k1, v1) :: rest, k, v =>
    if k1 = k then (k, v) :: rest else (k1, v1) :: aset rest k v

/-- Go map deletion `delete(m, k)`. -/
def adel [DecidableEq κ] (l : List (κ × α)) (k : κ) : List (κ × α) :=
  l.filter (fun p => decide (p.1 ≠ k))

/-- Insert an element into a list embedding a Go `map[κ]bool` used as a set. -/
def sinsert [DecidableEq κ] (l : List κ) (k : κ) : List κ :=
  if l.contains k then l else l ++ [k]

@[simp] theorem aget_nil [DecidableEq κ] (k : κ) : aget ([] : List (κ × α)) k = none := rfl

theorem aget_aset_self [DecidableEq κ] (l : List (κ × α)) (k : κ) (v : α) :
    aget (aset l k v) k = some v := by
  induction l with
  | nil => simp [aget, aset]
  | cons p rest ih =>
    obtain ⟨k1, v1⟩ := p
    by_cases h : k1 = k
    · simp [aget, aset, h]
    · simp [aget, aset, h, ih]

theorem aget_aset_ne [DecidableEq κ] (l : List (κ × α)) (k k2 : κ) (v : α) (h : k2 ≠ k) :
    aget (aset l k v) k2 = aget l k2 := by
  have hk : ¬ (k = k2) := fun hh => h hh.symm
  induction l with
  | nil => simp [aget, aset, hk]
  | cons p rest ih =>
    obtain ⟨k1, v1⟩ := p
    by_cases h1 : k1 = k
    · rw [h1]
      simp [aget, aset, hk, h]
    · simp only [aset, if_neg h1]
      by_cases h2 : k1 = k2 <;> simp [aget, h2, ih]

theorem aget_adel_self [DecidableEq κ] (l : List (κ × α)) (k : κ) :
    aget (adel l k) k = none := by
  induction l with
  | nil => simp [adel]
  | cons p rest ih =>
    obtain ⟨k1, v1⟩ := p
    by_cases h : k1 = k
    · simpa [adel, List.filter, h] using ih
    · simpa [adel, List.filter, h, aget] using ih

theorem aget_adel_ne [DecidableEq κ] (l : List (κ × α)) (k k2 : κ) (h : k2 ≠ k) :
    aget (adel l k) k2 = aget l k2 := by
  induction l with
  | nil => simp [adel]
  | cons p rest ih =>
    obtain ⟨k1, v1⟩ := p
    have hk2 : ¬ (k = k2) := fun hh => h hh.symm
    by_cases h1 : k1 = k
    · have hk : ¬ (k1 = k2) := by
        rw [h1]
        exact hk2
      simpa [adel, List.filter, aget, h1, hk, hk2] using ih
    · by_cases h2 : k1 = k2 <;>
        simp_all [adel, List.filter, aget, h1, h2, h, hk2]

/-! ## Errors of the external clients -/

/-- Errors returned by the Calico clients (`cerrors` in the source); the code
only ever distinguishes `ErrorResourceDoesNotExist` from everything else. -/
inductive CErr
  | resourceDoesNotExist
  | otherErr (msg : String)
deriving DecidableEq, Repr

/-- The type test `err.(cerrors.ErrorResourceDoesNotExist)`. -/
def CErr.isResourceDoesNotExist : CErr → Bool
  | .resourceDoesNotExist => true
  | .otherErr _ => false

/-- Errors returned by the Kubernetes listers/clients; the code only ever
distinguishes `errors.IsNotFound` from everything else. -/
inductive K8sErr
  | notFound
  | otherK8sErr (msg : String)
deriving DecidableEq, Repr

/-! ## Allocations (record and leak state machine)

The `allocation` type lives in `allocation.go`, which is not part of the
sources provided; its fields and methods are modelled from the spec
(§3, §4.6). The secondary-attribute map is flattened to the attributes the
controller reads: node, namespace, pod and type. -/

/-- Modelled from the spec: leak bookkeeping is a candidate-since timestamp
plus a confirmed flag (`Valid` = neither, `Candidate` = timestamp only,
`Confirmed` = flag set). -/
structure Allocation where
  ip : String
  handle : String
  attrNode : String
  attrNamespace : String
  attrPod : String
  attrType : String
  sequenceNumber : Nat
  block : String
  knode : String
  leakedAt : Option Int
  confirmedLeak : Bool
deriving DecidableEq, Repr

/-- Modelled from the spec: the unique id of an allocation is an injective
combination of handle, sequence number, block and ordinal (the ordinal is
determined by the IP within the block, so the IP stands in for it). -/
structure AllocId where
  block : String
  ip : String
  handle : String
  seq : Nat
deriving DecidableEq, Repr

/-- The `(address, handle, sequence number)` triple handed to
`IPAM.ReleaseIPs` for optimistic concurrency (spec §4.6). -/
structure ReleaseOptions where
  address : String
  handle : String
  sequenceNumber : Nat
deriving DecidableEq, Repr

def Allocation.id (a : Allocation) : AllocId :=
  ⟨a.block, a.ip, a.handle, a.sequenceNumber⟩

/-- Modelled from the spec: the allocation's node is read from the
secondary attributes. -/
def Allocation.node (a : Allocation) : String := a.attrNode

/-- Modelled from the spec (§4.6): `ReleaseOptions()` returns address,
handle and sequence number. -/
def Allocation.releaseOptions (a : Allocation) : ReleaseOptions :=
  ⟨a.ip, a.handle, a.sequenceNumber⟩

/-- Modelled from the spec (§3): tunnel addresses are the node
IPIP/VXLAN/Wireguard IPs, marked by the type secondary attribute. -/
def tunnelAddressTypes : List String :=
  ["ipipTunnelAddress", "vxlanTunnelAddress", "vxlanTunnelAddressV6",
   "wireguardTunnelAddress", "wireguardTunnelAddressV6"]

/-- Modelled from the spec (§4.6): presence of a tunnel type attribute marks
a tunnel address. -/
def Allocation.isTunnelAddress (a : Allocation) : Bool :=
  tunnelAddressTypes.contains a.attrType

/-- Modelled from the spec (§4.6): presence of pod plus namespace attributes
marks a pod IP. -/
def Allocation.isPodIP (a : Allocation) : Bool :=
  a.attrNamespace != "" && a.attrPod != ""

/-- Modelled from the spec (§3, §4.6): Windows-reserved addresses carry a
reserved marker handle and are never garbage-collected individually. -/
def windowsReservedHandle : String := "windows-reserved-ipam-handle"

def Allocation.isWindowsReserved (a : Allocation) : Bool :=
  a.handle == windowsReservedHandle

def Allocation.isConfirmedLeak (a : Allocation) : Bool := a.confirmedLeak

def Allocation.isCandidateLeak (a : Allocation) : Bool :=
  a.leakedAt.isSome && !a.confirmedLeak

/-- Modelled from the spec (§4.6): a subsequent check finding the pod clears
the timers. -/
def Allocation.markValid (a : Allocation) : Allocation :=
  { a with leakedAt := none, confirmedLeak := false }

def Allocation.markConfirmedLeak (a : Allocation) : Allocation :=
  { a with confirmedLeak := true }

/-- Modelled from the spec (§4.6): `markLeak` records the candidate-since
timestamp if not already a candidate, and promotes to Confirmed once the
elapsed time reaches the grace period. -/
def Allocation.markLeak (now grace : Int) (a : Allocation) : Allocation :=
  let a1 := if a.leakedAt.isNone then { a with leakedAt := some now } else a
  if grace ≤ now - (a1.leakedAt.getD now) then { a1 with confirmedLeak := true } else a1

/-! ## Pods as observed by `allocationIsValid` -/

/-- One workload endpoint derived from a pod. Each entry of `ipNetworks` is
the result of `net.ParseCIDR` on the endpoint's network string: `some ip`
for the parsed network IP (in canonical form), `none` for a parse failure. -/
structure WorkloadEndpoint where
  ipNetworks : List (Option String)
deriving DecidableEq, Repr

/-- Everything `allocationIsValid` reads from a pod. `weps` is the result of
`conversion.PodToWorkloadEndpoints`: `none` for a conversion error, and
`none` entries inside the list for nil KVPairs (skipped by the source). -/
structure PodInfo where
  specNodeName : String
  statusPodIP : String
  statusPodIPsEmpty : Bool
  phase : String
  statusReason : String
  weps : Option (List (Option WorkloadEndpoint))
deriving DecidableEq, Repr

/-- Result of a pod query (lister or API). -/
inductive PodLookup
  | notFound
  | otherErr
  | found (p : PodInfo)
deriving DecidableEq, Repr

/-- A Kubernetes node as observed by this controller: only its labels are
read (for the Flannel migration check). -/
structure KNode where
  labels : List (String × String)
deriving DecidableEq, Repr

/-- A Calico node as observed by this controller: `k8sNodeName` is `some kn`
when the node carries a Kubernetes orchestrator reference (`getK8sNodeName`
succeeds with `kn`), `none` when it is not a Kubernetes node. -/
structure CalicoNode where
  k8sNodeName : Option String
deriving DecidableEq, Repr

/-- Oracle environment: the results of every external call the controller
makes, plus the current time. -/
structure Env where
  now : Int
  ordinalToIP : String → Nat → String
  blockPoolMatch : String → List String → Option String
  podCacheLookup : String → String → PodLookup
  podAPILookup : String → String → PodLookup
  parseIP : String → Option String
  nodeListerGet : String → Except K8sErr KNode
  calicoNodesGet : String → Except CErr CalicoNode
  releaseIPs : List ReleaseOptions → List ReleaseOptions × Option CErr
  releaseBlockAffinity : String → Option CErr
  releaseHostAffinities : String → Option CErr

/-- Controller configuration (spec §6). -/
structure Config where
  leakGracePeriod : Option Int
deriving DecidableEq, Repr

/-! ## allocationIsValid (ipam.go lines 945-1046) -/

/-- One network entry of one workload endpoint, as scanned by the loop at
ipam.go 1024-1041: an unparseable network CIDR returns valid, an
unparseable allocation IP returns valid, a matching parsed IP returns
valid, otherwise the loop continues. -/
def networkGivesValid (env : Env) (a : Allocation) (nw : Option String) : Bool :=
  match nw with
  | none => true
  | some ipnw =>
    match env.parseIP a.ip with
    | none => true
    | some allocIP => allocIP == ipnw

/-- The workload-endpoint scan of ipam.go 1017-1042: nil endpoints are
skipped; every early exit inside the loops returns true and the
fall-through returns false, so the scan is an `any`. -/
def wepScan (env : Env) (a : Allocation) (kvps : List (Option WorkloadEndpoint)) : Bool :=
  kvps.any (fun kvp =>
    match kvp with
    | none => false
    | some wep => wep.ipNetworks.any (networkGivesValid env a))

/-- ipam.go 945-1046: returns true if the allocation is still in use, false
if it appears leaked. -/
def allocationIsValid (env : Env) (a : Allocation) (preferCache : Bool) : Bool :=
  if a.isTunnelAddress then
    a.knode != ""
  else if a.attrNamespace == "" || a.attrPod == "" then
    true
  else
    match (if preferCache then env.podCacheLookup a.attrNamespace a.attrPod
           else env.podAPILookup a.attrNamespace a.attrPod) with
    | .otherErr => true
    | .notFound => false
    | .found p =>
      if p.specNodeName != "" && a.knode != "" && p.specNodeName != a.knode then
        false
      else if p.statusPodIP == "" || p.statusPodIPsEmpty then
        true
      else if p.phase == "Failed" && p.statusReason == "Evicted" then
        false
      else
        match p.weps with
        | none => true
        | some kvps => wepScan env a kvps

/-- The pod query performed by `allocationIsValid`: cached lister when
`preferCache`, direct API otherwise (ipam.go 966-972). -/
def podQuery (env : Env) (a : Allocation) (preferCache : Bool) : PodLookup :=
  if preferCache then env.podCacheLookup a.attrNamespace a.attrPod
  else env.podAPILookup a.attrNamespace a.attrPod

/-! ## Claim C2: the case enumeration of allocationIsValid -/

/-- True when some successfully parsed workload-endpoint network IP equals
the (parsed) allocation IP — the literal reading of claim C2's final
clause "some IP network of the pod's derived workload endpoints equals
a.ip". -/
def networksMatchIP (env : Env) (a : Allocation) (kvps : List (Option WorkloadEndpoint)) : Bool :=
  kvps.any (fun kvp =>
    match kvp with
    | none => false
    | some wep => wep.ipNetworks.any (fun nw =>
        match nw, env.parseIP a.ip with
        | some x, some y => y == x
        | _, _ => false))

/-- True when some workload endpoint carries a network string that failed
to parse. -/
def networksUnparseable (kvps : List (Option WorkloadEndpoint)) : Bool :=
  kvps.any (fun kvp =>
    match kvp with
    | none => false
    | some wep => wep.ipNetworks.any (fun nw => nw.isNone))

/-- True when some workload endpoint carries at least one network entry. -/
def networksPresent (kvps : List (Option WorkloadEndpoint)) : Bool :=
  kvps.any (fun kvp =>
    match kvp with
    | none => false
    | some wep => !wep.ipNetworks.isEmpty)

theorem networks_any_characterization (env : Env) (a : Allocation) (l : List (Option String)) :
    l.any (networkGivesValid env a) =
      (l.any (fun nw => nw.isNone) ||
       ((env.parseIP a.ip).isNone && !l.isEmpty) ||
       l.any (fun nw =>
         match nw, env.parseIP a.ip with
         | some x, some y => y == x
         | _, _ => false)) := by
  induction l with
  | nil => simp
  | cons nw t ih =>
    cases nw with
    | none => simp [networkGivesValid]
    | some x =>
      cases hp : env.parseIP a.ip with
      | none =>
        simp [networkGivesValid, hp]
      | some y =>
        simp only [List.any_cons, networkGivesValid, hp, ih, List.isEmpty_cons,
          Option.isNone_some, Option.isNone_none, Bool.false_or, Bool.not_false,
          Bool.and_true, Bool.and_false, Bool.or_false]
        cases hyx : (y == x) <;>
          cases ht : t.any (fun nw => nw.isNone) <;>
          cases hm : t.any (fun nw =>
            match nw, env.parseIP a.ip with
            | some x, some y => y == x
            | _, _ => false) <;>
          cases hi : (env.parseIP a.ip).isNone <;>
          simp_all [hp]

theorem wepScan_characterization (env : Env) (a : Allocation)
    (kvps : List (Option WorkloadEndpoint)) :
    wepScan env a kvps =
      (networksUnparseable kvps ||
       ((env.parseIP a.ip).isNone && networksPresent kvps) ||
       networksMatchIP env a kvps) := by
  induction kvps with
  | nil => simp [wepScan, networksUnparseable, networksPresent, networksMatchIP]
  | cons kvp t ih =>
    cases kvp with
    | none =>
      simpa [wepScan, networksUnparseable, networksPresent, networksMatchIP] using ih
    | some wep =>
      simp only [wepScan, networksUnparseable, networksPresent, networksMatchIP,
        List.any_cons] at ih ⊢
      rw [networks_any_characterization env a wep.ipNetworks]
      cases h1 : wep.ipNetworks.any (fun nw => nw.isNone) <;>
        cases h2 : (env.parseIP a.ip).isNone <;>
        cases h3 : wep.ipNetworks.isEmpty <;>
        simp_all [Bool.or_assoc, Bool.or_comm, Bool.or_left_comm, Bool.and_or_distrib_left]

/-- Claim C2 exactly as written, as a boolean check over the embedding: the
enumerated case ladder ending with "otherwise true iff some IP network of
the pod's derived workload endpoints equals a.ip". -/
def claimC2Check (env : Env) (a : Allocation) (pc : Bool) : Bool :=
  let v := allocationIsValid env a pc
  if a.isTunnelAddress then v == (a.knode != "")
  else if a.attrNamespace == "" || a.attrPod == "" then v == true
  else
    match podQuery env a pc with
    | .notFound => v == false
    | .otherErr => v == true
    | .found p =>
      if p.specNodeName != "" && a.knode != "" && p.specNodeName != a.knode then v == false
      else if p.statusPodIP == "" || p.statusPodIPsEmpty then v == true
      else if p.phase == "Failed" && p.statusReason == "Evicted" then v == false
      else
        v == (match p.weps with
              | none => false
              | some kvps => networksMatchIP env a kvps)

/-- The pod used in the C2 counterexample: exists, same node, has an IP, not
evicted, and its single workload endpoint has a single network string that
fails to parse. -/
def podC2 : PodInfo :=
  { specNodeName := "k1", statusPodIP := "10.0.0.5", statusPodIPsEmpty := false,
    phase := "Running", statusReason := "", weps := some [some ⟨[none]⟩] }

def aC2 : Allocation :=
  { ip := "10.0.0.1", handle := "h1", attrNode := "n1", attrNamespace := "ns1",
    attrPod := "p1", attrType := "", sequenceNumber := 0, block := "10.0.0.0/26",
    knode := "k1", leakedAt := none, confirmedLeak := false }

def envC2 : Env :=
  { now := 0
    ordinalToIP := fun _ _ => ""
    blockPoolMatch := fun _ _ => none
    podCacheLookup := fun ns pod => if ns == "ns1" && pod == "p1" then .found podC2 else .notFound
    podAPILookup := fun _ _ => .notFound
    parseIP := fun s => some s
    nodeListerGet := fun _ => .error .notFound
    calicoNodesGet := fun _ => .error .resourceDoesNotExist
    releaseIPs := fun _ => ([], none)
    releaseBlockAffinity := fun _ => none
    releaseHostAffinities := fun _ => none }

/-- Counterexample to claim C2 as stated: for the concrete allocation `aC2`
and pod `podC2` — the pod exists on the same node with a reported IP and is
not evicted, but its only workload-endpoint network string fails to parse —
the source (ipam.go 1025-1029) returns true (assume valid) although no IP
network of the derived workload endpoints equals `a.ip`, so the claim's
final "true iff some IP network equals a.ip" is false at this input. -/
theorem claim_c2_counterexample : claimC2Check envC2 aC2 true = false := by decide

/-- Claim C2 as amended: identical to the claim except for the endpoint
scan, where a failed pod-to-workload-endpoint conversion yields valid, and
an unparseable network CIDR or an unparseable allocation IP encountered
during the scan also yields valid; with those cases added, the scan is
valid iff some parsed network IP equals the parsed allocation IP. -/
theorem claim_c2_amended (env : Env) (a : Allocation) (pc : Bool) :
    (a.isTunnelAddress = true → allocationIsValid env a pc = (a.knode != "")) ∧
    (a.isTunnelAddress = false → (a.attrNamespace == "" || a.attrPod == "") = true →
      allocationIsValid env a pc = true) ∧
    (a.isTunnelAddress = false → (a.attrNamespace == "" || a.attrPod == "") = false →
      (podQuery env a pc = .notFound → allocationIsValid env a pc = false) ∧
      (podQuery env a pc = .otherErr → allocationIsValid env a pc = true) ∧
      (∀ p, podQuery env a pc = .found p →
        ((p.specNodeName != "" && a.knode != "" && p.specNodeName != a.knode) = true →
          allocationIsValid env a pc = false) ∧
        ((p.specNodeName != "" && a.knode != "" && p.specNodeName != a.knode) = false →
          (p.statusPodIP == "" || p.statusPodIPsEmpty) = true →
          allocationIsValid env a pc = true) ∧
        ((p.specNodeName != "" && a.knode != "" && p.specNodeName != a.knode) = false →
          (p.statusPodIP == "" || p.statusPodIPsEmpty) = false →
          (p.phase == "Failed" && p.statusReason == "Evicted") = true →
          allocationIsValid env a pc = false) ∧
        ((p.specNodeName != "" && a.knode != "" && p.specNodeName != a.knode) = false →
          (p.statusPodIP == "" || p.statusPodIPsEmpty) = false →
          (p.phase == "Failed" && p.statusReason == "Evicted") = false →
          (p.weps = none → allocationIsValid env a pc = true) ∧
          (∀ kvps, p.weps = some kvps →
            allocationIsValid env a pc =
              (networksUnparseable kvps ||
               ((env.parseIP a.ip).isNone && networksPresent kvps) ||
               networksMatchIP env a kvps))))) := by
  refine ⟨?_, ?_, ?_⟩
  · intro ht
    simp [allocationIsValid, ht]
  · intro ht hm
    simp [allocationIsValid, ht, hm]
  · intro ht hm
    refine ⟨?_, ?_, ?_⟩
    · intro hq
      simp [allocationIsValid, podQuery, ht, hm] at hq ⊢
      rw [hq]
    · intro hq
      simp [allocationIsValid, podQuery, ht, hm] at hq ⊢
      rw [hq]
    · intro p hq
      have hv : allocationIsValid env a pc =
          (if p.specNodeName != "" && a.knode != "" && p.specNodeName != a.knode then
            false
          else if p.statusPodIP == "" || p.statusPodIPsEmpty then true
          else if p.phase == "Failed" && p.statusReason == "Evicted" then false
          else
            match p.weps with
            | none => true
            | some kvps => wepScan env a kvps) := by
        simp only [allocationIsValid, podQuery] at hq ⊢
        simp [ht, hm, hq]
      refine ⟨?_, ?_, ?_, ?_⟩
      · intro h1
        simp [hv, h1]
      · intro h1 h2
        simp [hv, h1, h2]
      · intro h1 h2 h3
        simp [hv, h1, h2, h3]
      · intro h1 h2 h3
        refine ⟨?_, ?_⟩
        · intro hw
          simp [hv, h1, h2, h3, hw]
        · intro kvps hw
          simp [hv, h1, h2, h3, hw, wepScan_characterization]

/-- Witness for the amended C2 theorem at a concrete input reaching the
final scan clause with a matching network. -/
theorem claim_c2_amended_witness :
    allocationIsValid envC2 { aC2 with ip := "10.0.0.5" } true = true := by
  have h := claim_c2_amended envC2 { aC2 with ip := "10.0.0.5" } true
  have h3 := h.2.2 (by decide) (by decide)
  have hf := (h3.2.2 podC2 (by decide)).2.2.2 (by decide) (by decide) (by decide)
  rw [(hf.2 [some ⟨[none]⟩] (by decide))]
  decide

/-! ## Claim C6: the periodic sync period (ipam.go 303-312) -/

/-- Five minutes in nanoseconds (durations are embedded as nanosecond
counts, matching Go `time.Duration`). -/
def fiveMinutes : Int := 300 * 1000000000

/-- ipam.go 303-310: the period of the periodic sync ticker: five minutes by
default, overridden to half the leak grace period whenever a positive grace
period is configured. -/
def periodicSyncPeriod (leakGracePeriod : Option Int) : Int :=
  match leakGracePeriod with
  | none => fiveMinutes
  | some d => if 0 < d then d / 2 else fiveMinutes

/-- Counterexample to claim C6 as stated: with a configured grace period of
two minutes, the source uses 120s/2 = 60s, not max(5min, 60s) = 5min. -/
theorem claim_c6_counterexample :
    0 < (120000000000 : Int) ∧
      periodicSyncPeriod (some 120000000000) ≠ max fiveMinutes (120000000000 / 2) := by
  constructor
  · decide
  · intro h
    simp only [periodicSyncPeriod, fiveMinutes] at h
    norm_num at h

/-- Claim C6 as amended: for a configured positive grace period G the period
is G/2 (with no five-minute floor); it is five minutes when no grace period
is configured or the configured value is not positive. The spec's
max(5 min, G/2) formula holds only when G is at least ten minutes. -/
theorem claim_c6_amended (g : Int) :
    (0 < g → periodicSyncPeriod (some g) = g / 2) ∧
    (g ≤ 0 → periodicSyncPeriod (some g) = fiveMinutes) ∧
    periodicSyncPeriod none = fiveMinutes ∧
    (2 * fiveMinutes ≤ g → periodicSyncPeriod (some g) = max fiveMinutes (g / 2)) := by
  refine ⟨?_, ?_, rfl, ?_⟩
  · intro hg
    simp [periodicSyncPeriod, hg]
  · intro hg
    simp [periodicSyncPeriod, not_lt.mpr hg]
  · intro hg
    have hpos : 0 < g := by
      have : (0 : Int) < 2 * fiveMinutes := by decide
      omega
    have hhalf : fiveMinutes ≤ g / 2 := by
      omega
    simp [periodicSyncPeriod, hpos, max_eq_right hhalf]

/-- Witness for the amended C6 theorem at G = 20 minutes. -/
theorem claim_c6_amended_witness :
    periodicSyncPeriod (some 1200000000000) = 600000000000 := by
  have h := (claim_c6_amended 1200000000000).1 (by decide)
  rw [h]
  decide

/-! ## Controller state

The flat `IPAMController` struct is split into the sync status and a
`Caches` record holding every other field; the syncer-update handlers and
the reconciliation engine only ever touch `Caches`. -/

inductive SyncStatus
  | waitForDatastore
  | resyncInProgress
  | inSync
deriving DecidableEq, Repr

/-- Modelled from the spec (§4.4): per-CIDR block release state. -/
inductive BlockReleaseStatus
  | inUse
  | emptySince (t : Int)
deriving DecidableEq, Repr

/-- One attribute record of an allocation block (`model.AllocationBlock`):
the primary attribute is the handle, and the secondary attribute map is
flattened to the keys this controller reads. -/
structure AttrRecord where
  attrPrimary : Option String
  attrNode : String
  attrNamespace : String
  attrPod : String
  attrType : String
deriving DecidableEq, Repr

/-- An allocation block: CIDR, optional affinity string, one slot per
ordinal holding `none` or an attribute index, the attribute records, and
the per-ordinal sequence numbers. -/
structure Block where
  cidr : String
  affinity : Option String
  allocations : List (Option Nat)
  attributes : List AttrRecord
  seqNumbers : List (Nat × Nat)
deriving DecidableEq, Repr

/-- `GetSequenceNumberForOrdinal` of `model.AllocationBlock` (zero when the
ordinal has no recorded sequence number). -/
def blockSeqForOrdinal (b : Block) (ord : Nat) : Nat :=
  (aget b.seqNumbers ord).getD 0

/-- All mutable controller caches (the `IPAMController` fields other than
the sync status). The Go caches share `*allocation` pointers; here `heap`
stores each allocation object under its id and every other cache holds
ids. -/
structure Caches where
  datastoreReady : Bool
  fullSyncRequired : Bool
  kubernetesNodesByCalicoName : List (String × String)
  allBlocks : List (String × Block)
  heap : List (AllocId × Allocation)
  allocationsByBlock : List (String × List AllocId)
  byNode : List (String × List AllocId)
  dirtyNodes : List String
  handleAllocs : List (String × List AllocId)
  confirmedLeaks : List AllocId
  nodesByBlock : List (String × String)
  blocksByNode : List (String × List String)
  emptyBlocks : List (String × String)
  blockTracker : List (String × BlockReleaseStatus)
  allPools : List String
  poolsByBlock : List (String × String)
  blocksByPool : List (String × List String)
  reclamationEvents : List (String × String)
deriving DecidableEq, Repr

structure CState where
  syncStatus : SyncStatus
  caches : Caches
deriving DecidableEq, Repr

/-! ## Component operations (allocation state, handle tracker, block
release tracker, pool manager): modelled from the spec §4.1-§4.4, since
their source files are not among the provided sources. -/

/-- Modelled from the spec (§4.3): `allocate(a)` adds `a` under `a.node`
and marks the node dirty. -/
def allocationStateAllocate (st : Caches) (a : Allocation) : Caches :=
  { st with
    byNode := aset st.byNode a.node (sinsert ((aget st.byNode a.node).getD []) a.id)
    dirtyNodes := sinsert st.dirtyNodes a.node }

/-- Modelled from the spec (§4.3): `release(a)` removes `a` and marks the
node dirty. -/
def allocationStateRelease (st : Caches) (a : Allocation) : Caches :=
  { st with
    byNode :=
      match aget st.byNode a.node with
      | none => st.byNode
      | some l => aset st.byNode a.node (l.filter (fun i => decide (i ≠ a.id)))
    dirtyNodes := sinsert st.dirtyNodes a.node }

/-- Modelled from the spec (§4.2): `setAllocation(a)` indexes `a` under its
handle. -/
def handleTrackerSet (st : Caches) (a : Allocation) : Caches :=
  { st with
    handleAllocs :=
      aset st.handleAllocs a.handle (sinsert ((aget st.handleAllocs a.handle).getD []) a.id) }

/-- Modelled from the spec (§4.2): `removeAllocation(a)` removes the entry
and drops the handle when its set becomes empty. -/
def handleTrackerRemove (st : Caches) (a : Allocation) : Caches :=
  let l := ((aget st.handleAllocs a.handle).getD []).filter (fun i => decide (i ≠ a.id))
  { st with
    handleAllocs :=
      if l.isEmpty then adel st.handleAllocs a.handle
      else aset st.handleAllocs a.handle l }

/-- Modelled from the spec (§4.2): `isConfirmedLeak(handle)` is true iff
every allocation sharing the handle is in the Confirmed state. -/
def handleIsConfirmedLeak (st : Caches) (h : String) : Bool :=
  ((aget st.handleAllocs h).getD []).all (fun i =>
    match aget st.heap i with
    | some a => a.confirmedLeak
    | none => true)

/-- Modelled from the spec (§4.4): `markInUse` transitions to InUse and
clears any timer. -/
def brtMarkInUse (t : List (String × BlockReleaseStatus)) (c : String) :
    List (String × BlockReleaseStatus) :=
  aset t c .inUse

/-- Modelled from the spec (§4.4): `markEmpty` sets EmptySince(now) on first
call and returns false; on subsequent calls it returns true iff the grace
period has elapsed; a nil grace period returns true immediately. -/
def brtMarkEmpty (grace : Option Int) (now : Int) (c : String)
    (t : List (String × BlockReleaseStatus)) : Bool × List (String × BlockReleaseStatus) :=
  match aget t c with
  | some (.emptySince t0) =>
    (match grace with
     | none => true
     | some g => decide (g ≤ now - t0), t)
  | _ => (grace.isNone, aset t c (.emptySince now))

/-- Modelled from the spec (§4.4): `onBlockDeleted` drops the entry. -/
def brtOnBlockDeleted (t : List (String × BlockReleaseStatus)) (c : String) :
    List (String × BlockReleaseStatus) :=
  adel t c

/-- Modelled from the spec (§4.1): the sentinel pool label for blocks whose
pool is unknown. -/
def unknownPoolLabel : String := "unknown"

/-- Modelled from the spec (§4.1): on block update, determine the owning
pool by matching against the known pools (the CIDR containment match is the
`blockPoolMatch` oracle) and update both directions. -/
def poolManagerOnBlockUpdated (env : Env) (st : Caches) (cidr : String) : Caches :=
  let pool := (env.blockPoolMatch cidr st.allPools).getD unknownPoolLabel
  let st1 :=
    match aget st.poolsByBlock cidr with
    | some old =>
      if old ≠ pool then
        { st with
          blocksByPool :=
            aset st.blocksByPool old
              (((aget st.blocksByPool old).getD []).filter (fun c => decide (c ≠ cidr))) }
      else st
    | none => st
  { st1 with
    poolsByBlock := aset st1.poolsByBlock cidr pool
    blocksByPool :=
      aset st1.blocksByPool pool (sinsert ((aget st1.blocksByPool pool).getD []) cidr) }

/-- Modelled from the spec (§4.1): on block delete, drop both directions. -/
def poolManagerOnBlockDeleted (st : Caches) (cidr : String) : Caches :=
  match aget st.poolsByBlock cidr with
  | none => st
  | some pool =>
    { st with
      poolsByBlock := adel st.poolsByBlock cidr
      blocksByPool :=
        aset st.blocksByPool pool
          (((aget st.blocksByPool pool).getD []).filter (fun c => decide (c ≠ cidr))) }

/-- Modelled from the spec (§4.1): pool upsert inserts/updates the pool. -/
def poolManagerOnPoolUpdated (st : Caches) (poolName : String) : Caches :=
  { st with allPools := sinsert st.allPools poolName }

/-- Modelled from the spec (§4.1): pool delete removes the pool and scrubs
reverse entries. -/
def poolManagerOnPoolDeleted (st : Caches) (poolName : String) : Caches :=
  { st with
    allPools := st.allPools.filter (fun p => decide (p ≠ poolName))
    blocksByPool := adel st.blocksByPool poolName
    poolsByBlock := st.poolsByBlock.filter (fun e => decide (e.2 ≠ poolName)) }

/-! ## Block update handling (ipam.go 463-599) -/

/-- The allocation record built for an allocated slot (ipam.go 507-513). -/
def mkAllocFromSlot (env : Env) (b : Block) (ord : Nat) (attr : AttrRecord)
    (handle : String) : Allocation :=
  { ip := env.ordinalToIP b.cidr ord
    handle := handle
    attrNode := attr.attrNode
    attrNamespace := attr.attrNamespace
    attrPod := attr.attrPod
    attrType := attr.attrType
    sequenceNumber := blockSeqForOrdinal b ord
    block := b.cidr
    knode := ""
    leakedAt := none
    confirmedLeak := false }

/-- The per-slot loop of `onBlockUpdated` (ipam.go 490-534): count allocated
slots, skip slots without a primary handle, record current allocation ids,
and index new allocations into the block map, the node view and the handle
tracker. A spec §3 invariant keeps the attribute index in range; out-of-range
indices read an empty attribute record. -/
def processSlots (env : Env) (b : Block) :
    List (Nat × Option Nat) → Caches → List AllocId → Nat → Caches × List AllocId × Nat
  | [], st, cur, num => (st, cur, num)
  | (_, none) :: rest, st, cur, num => processSlots env b rest st cur num
  | (ord, some idx) :: rest, st, cur, num =>
    let num1 := num + 1
    let attr := b.attributes.getD idx ⟨none, "", "", "", ""⟩
    match attr.attrPrimary with
    | none => processSlots env b rest st cur num1
    | some handle =>
      let alloc := mkAllocFromSlot env b ord attr handle
      let cur1 := cur ++ [alloc.id]
      if ((aget st.allocationsByBlock b.cidr).getD []).contains alloc.id then
        processSlots env b rest st cur1 num1
      else
        let st1 :=
          { st with
            heap := aset st.heap alloc.id alloc
            allocationsByBlock :=
              aset st.allocationsByBlock b.cidr
                (((aget st.allocationsByBlock b.cidr).getD []) ++ [alloc.id]) }
        let st2 := if alloc.node ≠ "" then allocationStateAllocate st1 alloc else st1
        let st3 := handleTrackerSet st2 alloc
        processSlots env b rest st3 cur1 num1

/-- The removal loop of `onBlockUpdated` (ipam.go 551-566): drop allocations
no longer present in the block. The heap lookup cannot fail for coherent
states (the Go map iteration hands back the stored object); a dangling id
is skipped. -/
def removeStale (cidr : String) (cur : List AllocId) :
    List AllocId → Caches → Caches
  | [], st => st
  | i :: rest, st =>
    if cur.contains i then removeStale cidr cur rest st
    else
      match aget st.heap i with
      | none => removeStale cidr cur rest st
      | some alloc =>
        let st1 := handleTrackerRemove st alloc
        let st2 :=
          { st1 with
            allocationsByBlock :=
              aset st1.allocationsByBlock cidr
                (((aget st1.allocationsByBlock cidr).getD []).filter (fun x => decide (x ≠ i))) }
        let st3 := if alloc.node ≠ "" then allocationStateRelease st2 alloc else st2
        let st4 :=
          { st3 with
            confirmedLeaks := st3.confirmedLeaks.filter (fun x => decide (x ≠ i))
            heap := adel st3.heap i }
        removeStale cidr cur rest st4

/-- strings.HasPrefix(affinity, "host:"), over character lists so that the
check reduces inside the kernel. -/
def hasHostAffinityMarker (aff : String) : Bool :=
  "host:".data.isPrefixOf aff.data

/-- strings.TrimPrefix(affinity, "host:"): drop the five marker
characters. -/
def stripHostAffinityMarker (aff : String) : String :=
  ⟨aff.data.drop 5⟩

/-- The affinity-tracking step of `onBlockUpdated` (ipam.go 468-487): a
host-prefixed affinity records the block's node in both directions; a
removed affinity scrubs the entries. Returns the updated caches and the
affine node (empty when none). -/
def applyAffinity (st0 : Caches) (b : Block) : Caches × String :=
  let cidr := b.cidr
  match b.affinity with
  | some aff =>
    if hasHostAffinityMarker aff then
      let n := stripHostAffinityMarker aff
      ({ st0 with
         nodesByBlock := aset st0.nodesByBlock cidr n
         blocksByNode :=
           aset st0.blocksByNode n (sinsert ((aget st0.blocksByNode n).getD []) cidr) }, n)
    else (st0, "")
  | none =>
    match aget st0.nodesByBlock cidr with
    | some n0 =>
      ({ st0 with
         nodesByBlock := adel st0.nodesByBlock cidr
         blocksByNode :=
           match aget st0.blocksByNode n0 with
           | none => st0.blocksByNode
           | some l =>
             aset st0.blocksByNode n0 (l.filter (fun c => decide (c ≠ cidr))) }, "")
    | none => (st0, "")

/-- The empty-block bookkeeping of `onBlockUpdated` (ipam.go 536-548):
clear the block's empty-candidacy entry, then re-add it when the block is
affine and has zero allocated slots, or mark the block in use when it is
affine and non-empty. -/
def blockEmptyUpdate (cidr : String) (n : String) (num : Nat) (st : Caches) : Caches :=
  let st3 := { st with emptyBlocks := adel st.emptyBlocks cidr }
  if n ≠ "" ∧ num = 0 then { st3 with emptyBlocks := aset st3.emptyBlocks cidr n }
  else if n ≠ "" then { st3 with blockTracker := brtMarkInUse st3.blockTracker cidr }
  else st3

/-- ipam.go 463-572: `onBlockUpdated`. -/
def onBlockUpdated (env : Env) (st0 : Caches) (b : Block) : Caches :=
  let affRes := applyAffinity st0 b
  let slots := processSlots env b b.allocations.enum affRes.1 [] 0
  let st4 := blockEmptyUpdate b.cidr affRes.2 slots.2.2 slots.1
  let st5 := removeStale b.cidr slots.2.1 ((aget st4.allocationsByBlock b.cidr).getD []) st4
  let st6 := poolManagerOnBlockUpdated env st5 b.cidr
  { st6 with allBlocks := aset st6.allBlocks b.cidr b }

/-- ipam.go 574-599: `onBlockDeleted`. The heap keeps the objects of the
deleted block's allocations, as the Go handle tracker still references
them. -/
def onBlockDeleted (st : Caches) (cidr : String) : Caches :=
  let ids := (aget st.allocationsByBlock cidr).getD []
  let st1 := ids.foldl (fun s i =>
    match aget s.heap i with
    | none => s
    | some alloc => if alloc.node ≠ "" then allocationStateRelease s alloc else s) st
  let st2 := { st1 with allocationsByBlock := adel st1.allocationsByBlock cidr }
  let st3 :=
    match aget st2.nodesByBlock cidr with
    | some n =>
      if n ≠ "" then
        { st2 with
          blocksByNode :=
            match aget st2.blocksByNode n with
            | none => st2.blocksByNode
            | some l => aset st2.blocksByNode n (l.filter (fun c => decide (c ≠ cidr))) }
      else st2
    | none => st2
  let st4 :=
    { st3 with
      allBlocks := adel st3.allBlocks cidr
      nodesByBlock := adel st3.nodesByBlock cidr
      emptyBlocks := adel st3.emptyBlocks cidr
      blockTracker := brtOnBlockDeleted st3.blockTracker cidr }
  poolManagerOnBlockDeleted st4 cidr

/-! ## The remaining syncer-update handlers (ipam.go 373-461) -/

/-- ipam.go 415-439: `handleNodeUpdate`. A `getK8sNodeName` failure leaves
the Kubernetes name at its zero value, which is still stored. -/
def handleNodeUpdate (st : Caches) (name : String) (v : Option CalicoNode) : Caches :=
  match v with
  | some cn =>
    let kn := cn.k8sNodeName.getD ""
    match aget st.kubernetesNodesByCalicoName name with
    | none =>
      { st with kubernetesNodesByCalicoName := aset st.kubernetesNodesByCalicoName name kn }
    | some current =>
      if current ≠ kn then
        { st with kubernetesNodesByCalicoName := aset st.kubernetesNodesByCalicoName name kn }
      else st
  | none => { st with kubernetesNodesByCalicoName := adel st.kubernetesNodesByCalicoName name }

/-- ipam.go 452-461: `handleClusterInformationUpdate` (the inner option is
the `DatastoreReady` pointer). -/
def handleClusterInformationUpdate (st : Caches) (v : Option (Option Bool)) : Caches :=
  match v with
  | some ci =>
    match ci with
    | some ready => { st with datastoreReady := ready }
    | none => st
  | none => { st with datastoreReady := false }

/-- ipam.go 441-449: `handlePoolUpdate` (metric vector registration is not
modelled). -/
def handlePoolUpdate (st : Caches) (poolName : String) (v : Option Unit) : Caches :=
  match v with
  | some _ => poolManagerOnPoolUpdated st poolName
  | none => poolManagerOnPoolDeleted st poolName

/-- ipam.go 406-412: `handleBlockUpdate`. For upserts the key CIDR equals
the value block's CIDR. -/
def handleBlockUpdate (env : Env) (st : Caches) (key : String) (v : Option Block) : Caches :=
  match v with
  | some b => onBlockUpdated env st b
  | none => onBlockDeleted st key

/-- A syncer update as dispatched by `handleUpdate` (ipam.go 373-403). -/
inductive SyncerUpd
  | status (s : SyncStatus)
  | blockUpd (key : String) (value : Option Block)
  | nodeUpd (name : String) (value : Option CalicoNode)
  | poolUpd (name : String) (value : Option Unit)
  | clusterInfoUpd (value : Option (Option Bool))
deriving DecidableEq, Repr

/-- ipam.go 373-403: `handleUpdate`. The returned Bool records whether the
sync channel was kicked (only an InSync status update kicks here). -/
def handleUpdate (env : Env) (st : CState) : SyncerUpd → CState × Bool
  | .status s => ({ st with syncStatus := s }, decide (s = .inSync))
  | .blockUpd key v => ({ st with caches := handleBlockUpdate env st.caches key v }, false)
  | .nodeUpd name v => ({ st with caches := handleNodeUpdate st.caches name v }, false)
  | .poolUpd name v => ({ st with caches := handlePoolUpdate st.caches name v }, false)
  | .clusterInfoUpd v => ({ st with caches := handleClusterInformationUpdate st.caches v }, false)

/-! ## Node lookups (ipam.go 1230-1297) -/

inductive NodeLookupErr
  | notKubernetes
  | clientErr
deriving DecidableEq, Repr

/-- Modelled from the spec: `getK8sNodeName` reads the Kubernetes
orchestrator reference of a Calico node, failing with the
not-a-Kubernetes-node sentinel when there is none. -/
def getK8sNodeName (n : CalicoNode) : Except NodeLookupErr String :=
  match n.k8sNodeName with
  | some kn => .ok kn
  | none => .error .notKubernetes

/-- The fallback path of `kubernetesNodeForCalico` (ipam.go 1284-1296):
query the Calico node; `ErrorResourceDoesNotExist` yields the empty name,
other client errors propagate, otherwise derive the Kubernetes name. -/
def kubernetesNodeForCalicoFallback (env : Env) (cnode : String) :
    Except NodeLookupErr String :=
  match env.calicoNodesGet cnode with
  | .error e => if e.isResourceDoesNotExist then .ok "" else .error .clientErr
  | .ok n => getK8sNodeName n

/-- ipam.go 1274-1297: cache first (only non-empty cached names count),
then the explicit lookup. -/
def kubernetesNodeForCalico (env : Env) (st : Caches) (cnode : String) :
    Except NodeLookupErr String :=
  match aget st.kubernetesNodesByCalicoName cnode with
  | some kn => if kn ≠ "" then .ok kn else kubernetesNodeForCalicoFallback env cnode
  | none => kubernetesNodeForCalicoFallback env cnode

/-- ipam.go 1230-1239: `nodeExists`: NotFound means gone, any other error
assumes the node exists. -/
def nodeExists (env : Env) (knode : String) : Bool :=
  match env.nodeListerGet knode with
  | .error .notFound => false
  | _ => true

/-- Modelled from the spec: the Flannel migration label checked by
`nodeIsBeingMigrated` and its designated migrated marker value. -/
def migrationNodeNetworkKey : String := "projectcalico.org/node-network-during-migration"

def migratedMarkerValue : String := "calico"

inductive MigErr
  | lookupFailed
  | k8sFailed
deriving DecidableEq, Repr

/-- ipam.go 1243-1269: a node is being migrated iff its Kubernetes node
carries the migration label with any value other than the migrated
marker. -/
def nodeIsBeingMigrated (env : Env) (st : Caches) (name : String) : Except MigErr Bool :=
  match kubernetesNodeForCalico env st name with
  | .error _ => .error .lookupFailed
  | .ok kname =>
    match env.nodeListerGet kname with
    | .error .notFound => .ok false
    | .error _ => .error .k8sFailed
    | .ok node =>
      .ok (node.labels.any (fun lv =>
        lv.1 == migrationNodeNetworkKey && lv.2 != migratedMarkerValue))

/-! ## checkAllocations (ipam.go 785-941) -/

/-- Loop state of the per-node allocation scan: the evolving caches, the
deferred tunnel allocations, and the `canDelete` flag. -/
structure ScanAcc where
  st : Caches
  tunnels : List AllocId
  canDelete : Bool

/-- The per-allocation body of the scan (ipam.go 862-919). The Kubernetes
node name is stored on the allocation first; Windows-reserved addresses are
skipped; unknown-source allocations clear `canDelete`; tunnel addresses are
deferred; valid allocations clear `canDelete` and are marked valid; invalid
ones are confirmed directly when the Kubernetes node is absent, otherwise
marked as candidate leaks when a grace period is configured; finally the
confirmed-leak index is updated. A dangling heap id (impossible for
coherent states) is skipped. -/
def scanAllocation (cfg : Config) (env : Env) (knode : String) (kExists : Bool)
    (acc : ScanAcc) (i : AllocId) : ScanAcc :=
  match aget acc.st.heap i with
  | none => acc
  | some a0 =>
    let a := { a0 with knode := knode }
    let stK := { acc.st with heap := aset acc.st.heap i a }
    if a.isWindowsReserved then { acc with st := stK }
    else if !a.isPodIP && !a.isTunnelAddress then { acc with st := stK, canDelete := false }
    else if a.isTunnelAddress then { acc with st := stK, tunnels := acc.tunnels ++ [i] }
    else if allocationIsValid env a true then
      { acc with st := { stK with heap := aset stK.heap i a.markValid }, canDelete := false }
    else
      let a1 :=
        if !kExists then a.markConfirmedLeak
        else
          match cfg.leakGracePeriod with
          | some g => a.markLeak env.now g
          | none => a
      let st1 := { stK with heap := aset stK.heap i a1 }
      let st2 :=
        if a1.isConfirmedLeak then { st1 with confirmedLeaks := sinsert st1.confirmedLeaks i }
        else if st1.confirmedLeaks.contains i then
          { st1 with confirmedLeaks := st1.confirmedLeaks.filter (fun x => decide (x ≠ i)) }
        else st1
      { acc with st := st2 }

/-- ipam.go 929-931: a deferred tunnel allocation of a deleted node is
marked as a confirmed leak and indexed. -/
def markTunnelConfirmed (st : Caches) (i : AllocId) : Caches :=
  match aget st.heap i with
  | none => st
  | some a =>
    { st with
      heap := aset st.heap i a.markConfirmedLeak
      confirmedLeaks := sinsert st.confirmedLeaks i }

/-- The per-node body of `checkAllocations` (ipam.go 824-938). A failed
Kubernetes-name lookup (not-a-Kubernetes-node sentinel or client error)
skips the node. -/
def scanNode (cfg : Config) (env : Env) (p : Caches × List String)
    (cnode : String) (ids : List AllocId) : Caches × List String :=
  match kubernetesNodeForCalico env p.1 cnode with
  | .error _ => p
  | .ok knode =>
    let kExists := knode != "" && nodeExists env knode
    let acc := ids.foldl (scanAllocation cfg env knode kExists) ⟨p.1, [], true⟩
    if !kExists then
      if !acc.canDelete then (acc.st, p.2)
      else
        let st2 := acc.tunnels.foldl markTunnelConfirmed acc.st
        (st2, p.2 ++ [cnode])
    else (acc.st, p.2)

/-- The map of nodes to inspect (ipam.go 790-818): on a full sync, an empty
entry per affine node overridden by the per-node allocations; otherwise the
dirty nodes with their allocations. This reads only fields that clearing
the full-sync flag leaves untouched. -/
def nodesToCheck (st : Caches) : List (String × List AllocId) :=
  if st.fullSyncRequired then
    st.byNode.foldl (fun m (e : String × List AllocId) => aset m e.1 e.2)
      (st.nodesByBlock.foldl (fun m (e : String × String) => aset m e.2 ([] : List AllocId)) [])
  else
    st.dirtyNodes.foldl (fun m node => aset m node ((aget st.byNode node).getD [])) []

/-- ipam.go 785-941: scan the nodes to check (all affine nodes plus all
nodes with allocations on a full sync, else only dirty nodes) and return
the nodes whose affinities should be released. The full-sync flag is
cleared before scanning. The error component is always nil: per-node
failures are downgraded to skips. -/
def checkAllocations (cfg : Config) (env : Env) (st : Caches) :
    Caches × List String × Option CErr :=
  let st1 := if st.fullSyncRequired then { st with fullSyncRequired := false } else st
  let scanRes := (nodesToCheck st).foldl
    (fun p (e : String × List AllocId) => scanNode cfg env p e.1 e.2) (st1, ([] : List String))
  (scanRes.1, scanRes.2, none)

/-! ## garbageCollectKnownLeaks (ipam.go 1104-1184) -/

def maxBatchSize : Nat := 10000

/-- ipam.go line 70: label used for allocations without a node attribute. -/
def unknownNodeLabel : String := "unknown_node"

/-- ipam.go 1118-1123: a leak whose final re-verification says valid is
dropped from the index and marked valid. -/
def resurrectLeak (st : Caches) (i : AllocId) (a : Allocation) : Caches :=
  { st with
    confirmedLeaks := st.confirmedLeaks.filter (fun x => decide (x ≠ i))
    heap := aset st.heap i a.markValid }

/-- The collection loop of `garbageCollectKnownLeaks` (ipam.go 1110-1137):
re-verify each confirmed leak (preferring the cache exactly when the
allocation's Kubernetes node is empty), skip handles that are not fully
confirmed, collect release options keyed by address, and stop at the batch
cap. A dangling heap id (impossible for coherent states, as the Go map
stores the object) is skipped. -/
def gcCollectGo (env : Env) :
    List AllocId → Caches → List ReleaseOptions → List (String × Allocation) →
      Caches × List ReleaseOptions × List (String × Allocation)
  | [], st, opts, leaks => (st, opts, leaks)
  | i :: rest, st, opts, leaks =>
    match aget st.heap i with
    | none => gcCollectGo env rest st opts leaks
    | some a =>
      if allocationIsValid env a (a.knode == "") then
        gcCollectGo env rest (resurrectLeak st i a) opts leaks
      else if !handleIsConfirmedLeak st a.handle then
        gcCollectGo env rest st opts leaks
      else
        let opts1 := opts ++ [a.releaseOptions]
        let leaks1 := aset leaks a.releaseOptions.address a
        if maxBatchSize ≤ opts1.length then (st, opts1, leaks1)
        else gcCollectGo env rest st opts1 leaks1

/-- The collection phase over the confirmed-leak index. Its second component
is exactly the list of options handed to `IPAM.ReleaseIPs` (when
non-empty). -/
def gcCollect (env : Env) (st : Caches) :
    Caches × List ReleaseOptions × List (String × Allocation) :=
  gcCollectGo env st.confirmedLeaks st [] []

/-- The metric registration state: vectors exist for the unknown-pool
sentinel (registered by init) and for every live pool (registered on first
observation, unregistered on deletion). -/
def reclamationCounterRegistered (st : Caches) (pool : String) : Bool :=
  pool == unknownPoolLabel || st.allPools.contains pool

/-- ipam.go 1299-1310: increment the reclamation counter of the block's
pool for the allocation's node; skipped when the pool's counter vector is
not registered. -/
def incrementReclamationMetric (st : Caches) (block : String) (node : String) : Caches :=
  let pool := (aget st.poolsByBlock block).getD ""
  let node1 := if node == "" then unknownNodeLabel else node
  if reclamationCounterRegistered st pool then
    { st with reclamationEvents := st.reclamationEvents ++ [(pool, node1)] }
  else st

/-- ipam.go 1152-1168: for every option `ReleaseIPs` reported as released,
release the allocation from the allocation state, count the reclamation and
drop it from the confirmed-leak index. An address with no collected
allocation hits the `log.Fatalf` BUG branch, embedded as `none`. -/
def processReleased :
    List ReleaseOptions → Caches → List (String × Allocation) → Option Caches
  | [], st, _ => some st
  | opt :: rest, st, leaks =>
    match aget leaks opt.address with
    | none => none
    | some a =>
      let st1 := allocationStateRelease st a
      let st2 := incrementReclamationMetric st1 a.block a.node
      let st3 :=
        { st2 with confirmedLeaks := st2.confirmedLeaks.filter (fun x => decide (x ≠ a.id)) }
      processReleased rest st3 (adel leaks opt.address)

/-- ipam.go 1104-1184: `garbageCollectKnownLeaks`. An empty batch returns
immediately; otherwise `ReleaseIPs` is invoked, the returned options are
processed, and a `ResourceDoesNotExist` error is treated as success while
any other error propagates. -/
def garbageCollectKnownLeaks (env : Env) (st : Caches) : Option (Caches × Option CErr) :=
  let col := gcCollect env st
  if col.2.1.isEmpty then some (col.1, none)
  else
    let rel := env.releaseIPs col.2.1
    match processReleased rel.1 col.1 col.2.2 with
    | none => none
    | some st2 =>
      some (st2,
        match rel.2 with
        | none => none
        | some e => if e.isResourceDoesNotExist then none else some e)

/-! ## releaseUnusedBlocks (ipam.go 711-768) -/

/-- The loop body of `releaseUnusedBlocks` over the empty-block entries.
The returned list records every block for which `IPAM.ReleaseBlockAffinity`
was invoked. -/
def releaseUnusedBlocksGo (cfg : Config) (env : Env) :
    List (String × String) → Caches → List String → Caches × List String
  | [], st, called => (st, called)
  | (cidr, node) :: rest, st, called =>
    let nodeBlocks := (aget st.blocksByNode node).getD []
    if nodeBlocks.length ≤ 1 then releaseUnusedBlocksGo cfg env rest st called
    else
      match nodeIsBeingMigrated env st node with
      | .error _ =>
        releaseUnusedBlocksGo cfg env rest
          { st with blockTracker := brtMarkInUse st.blockTracker cidr } called
      | .ok true =>
        releaseUnusedBlocksGo cfg env rest
          { st with blockTracker := brtMarkInUse st.blockTracker cidr } called
      | .ok false =>
        let me := brtMarkEmpty cfg.leakGracePeriod env.now cidr st.blockTracker
        let st1 := { st with blockTracker := me.2 }
        if !me.1 then releaseUnusedBlocksGo cfg env rest st1 called
        else
          match aget st1.allBlocks cidr with
          | none => releaseUnusedBlocksGo cfg env rest st1 called
          | some _ =>
            let called1 := called ++ [cidr]
            match env.releaseBlockAffinity cidr with
            | some _ => releaseUnusedBlocksGo cfg env rest st1 called1
            | none =>
              let st2 :=
                { st1 with
                  emptyBlocks := adel st1.emptyBlocks cidr
                  blocksByNode :=
                    match aget st1.blocksByNode node with
                    | none => st1.blocksByNode
                    | some l => aset st1.blocksByNode node (l.filter (fun c => decide (c ≠ cidr)))
                  nodesByBlock := adel st1.nodesByBlock cidr
                  allBlocks := adel st1.allBlocks cidr
                  blockTracker := brtOnBlockDeleted st1.blockTracker cidr }
              releaseUnusedBlocksGo cfg env rest (poolManagerOnBlockDeleted st2 cidr) called1

/-- ipam.go 711-768: `releaseUnusedBlocks`; its error is always nil. -/
def releaseUnusedBlocks (cfg : Config) (env : Env) (st : Caches) :
    Caches × List String × Option CErr :=
  let r := releaseUnusedBlocksGo cfg env st.emptyBlocks st []
  (r.1, r.2, none)

/-! ## releaseNodes and syncIPAM (ipam.go 1048-1227) -/

/-- ipam.go 1425-1430: clear the node's reclamation counters. -/
def clearReclaimedIPCountForNode (st : Caches) (node : String) : Caches :=
  { st with reclamationEvents := st.reclamationEvents.filter (fun e => decide (e.2 ≠ node)) }

/-- ipam.go 1207-1227: `cleanupNode`: release the node's host affinities
(requiring empty blocks) and clear its reclamation counters on success. -/
def cleanupNode (env : Env) (st : Caches) (cnode : String) : Caches × Option CErr :=
  match env.releaseHostAffinities cnode with
  | some e => (st, some e)
  | none => (clearReclaimedIPCountForNode st cnode, none)

/-- ipam.go 1186-1205: per-node errors are recorded but do not stop the
batch; the last stored error is returned. -/
def releaseNodesGo (env : Env) : List String → Caches → Option CErr → Caches × Option CErr
  | [], st, stored => (st, stored)
  | n :: rest, st, stored =>
    let r := cleanupNode env st n
    match r.2 with
    | some e => releaseNodesGo env rest r.1 (some e)
    | none => releaseNodesGo env rest r.1 stored

def releaseNodes (env : Env) (nodes : List String) (st : Caches) : Caches × Option CErr :=
  if nodes.isEmpty then (st, none)
  else releaseNodesGo env nodes st none

/-- ipam.go 1048-1101: `syncIPAM`. Gates on datastore readiness and InSync;
each phase's error short-circuits; on full success the dirty set is cleared
and the sync channel is kicked iff confirmed leaks remain (the returned
Bool). `none` embeds the `log.Fatalf` abort inside GC. -/
def syncIPAM (cfg : Config) (env : Env) (st : CState) :
    Option (CState × Option CErr × Bool) :=
  if !st.caches.datastoreReady then some (st, none, false)
  else if st.syncStatus ≠ .inSync then some (st, none, false)
  else
    let chk := checkAllocations cfg env st.caches
    match chk.2.2 with
    | some e => some ({ st with caches := chk.1 }, some e, false)
    | none =>
      match garbageCollectKnownLeaks env chk.1 with
      | none => none
      | some (c2, some e) => some ({ st with caches := c2 }, some e, false)
      | some (c2, none) =>
        let rub := releaseUnusedBlocks cfg env c2
        match rub.2.2 with
        | some e => some ({ st with caches := rub.1 }, some e, false)
        | none =>
          let rn := releaseNodes env chk.2.1 rub.1
          match rn.2 with
          | some e => some ({ st with caches := rn.1 }, some e, false)
          | none =>
            let c5 := { rn.1 with dirtyNodes := [] }
            some ({ st with caches := c5 }, none, decide (0 < c5.confirmedLeaks.length))

/-! ## The select branches that invoke syncIPAM (ipam.go 314-368) -/

inductive RetryAction
  | scheduleRetry
  | success
  | noAction
deriving DecidableEq, Repr

/-- ipam.go 292-299: `fullScanNextSync`. -/
def fullScanNextSync (st : CState) : CState :=
  { st with caches := { st.caches with fullSyncRequired := true } }

/-- The periodic-ticker select branch (ipam.go 333-342): mark a full scan,
run `syncIPAM`, and only log any error — the retry controller is not
touched on this path. -/
def dispatchTick (cfg : Config) (env : Env) (st : CState) : Option (CState × RetryAction) :=
  match syncIPAM cfg env (fullScanNextSync st) with
  | none => none
  | some (st1, _, _) => some (st1, .noAction)

/-- The sync-channel select branch (ipam.go 343-359): run `syncIPAM`;
schedule a retry on error, report success otherwise. -/
def dispatchSyncKick (cfg : Config) (env : Env) (st : CState) : Option (CState × RetryAction) :=
  match syncIPAM cfg env st with
  | none => none
  | some (st1, some _, _) => some (st1, .scheduleRetry)
  | some (st1, none, _) => some (st1, .success)

/-! ## Frame lemmas: the allocation scan never touches the node-name
cache, so Kubernetes-name lookups are stable across a scan. -/

theorem scanAllocation_kmap (cfg : Config) (env : Env) (knode : String) (kExists : Bool)
    (acc : ScanAcc) (i : AllocId) :
    (scanAllocation cfg env knode kExists acc i).st.kubernetesNodesByCalicoName =
      acc.st.kubernetesNodesByCalicoName := by
  unfold scanAllocation
  cases aget acc.st.heap i with
  | none => rfl
  | some a0 =>
    dsimp only
    repeat' split
    all_goals rfl

theorem markTunnelConfirmed_kmap (st : Caches) (i : AllocId) :
    (markTunnelConfirmed st i).kubernetesNodesByCalicoName = st.kubernetesNodesByCalicoName := by
  unfold markTunnelConfirmed
  cases aget st.heap i <;> rfl

theorem scanAllocationFold_kmap (cfg : Config) (env : Env) (knode : String) (kExists : Bool)
    (ids : List AllocId) :
    ∀ acc, ((ids.foldl (scanAllocation cfg env knode kExists) acc).st.kubernetesNodesByCalicoName) =
      acc.st.kubernetesNodesByCalicoName := by
  induction ids with
  | nil => intro acc; rfl
  | cons i t ih =>
    intro acc
    rw [List.foldl_cons, ih, scanAllocation_kmap]

theorem markTunnelFold_kmap (ids : List AllocId) :
    ∀ st : Caches, ((ids.foldl markTunnelConfirmed st).kubernetesNodesByCalicoName) =
      st.kubernetesNodesByCalicoName := by
  induction ids with
  | nil => intro st; rfl
  | cons i t ih =>
    intro st
    rw [List.foldl_cons, ih, markTunnelConfirmed_kmap]

theorem kubernetesNodeForCalico_congr (env : Env) (st1 st2 : Caches) (c : String)
    (h : st1.kubernetesNodesByCalicoName = st2.kubernetesNodesByCalicoName) :
    kubernetesNodeForCalico env st1 c = kubernetesNodeForCalico env st2 c := by
  unfold kubernetesNodeForCalico
  rw [h]

/-- Behaviour of one `scanNode` step: the node-name cache is untouched, and
the release list either stays or gains exactly the scanned node, the
latter only when its Kubernetes-name lookup succeeded. -/
theorem scanNode_spec (cfg : Config) (env : Env) (p : Caches × List String)
    (cnode : String) (ids : List AllocId) :
    (scanNode cfg env p cnode ids).1.kubernetesNodesByCalicoName =
        p.1.kubernetesNodesByCalicoName ∧
      ((scanNode cfg env p cnode ids).2 = p.2 ∨
       ((scanNode cfg env p cnode ids).2 = p.2 ++ [cnode] ∧
        ∃ kn, kubernetesNodeForCalico env p.1 cnode = .ok kn)) := by
  unfold scanNode
  cases hk : kubernetesNodeForCalico env p.1 cnode with
  | error e => exact ⟨rfl, Or.inl rfl⟩
  | ok knode =>
    dsimp only
    split
    · split
      · exact ⟨scanAllocationFold_kmap cfg env knode _ ids ⟨p.1, [], true⟩, Or.inl rfl⟩
      · refine ⟨?_, Or.inr ⟨rfl, knode, rfl⟩⟩
        rw [markTunnelFold_kmap, scanAllocationFold_kmap]
    · exact ⟨scanAllocationFold_kmap cfg env knode _ ids ⟨p.1, [], true⟩, Or.inl rfl⟩

theorem scanFold_spec (cfg : Config) (env : Env) (st0 : Caches)
    (l : List (String × List AllocId)) :
    ∀ p : Caches × List String,
      p.1.kubernetesNodesByCalicoName = st0.kubernetesNodesByCalicoName →
      (∀ c ∈ p.2, ∃ kn, kubernetesNodeForCalico env st0 c = .ok kn) →
      ((l.foldl (fun p (e : String × List AllocId) => scanNode cfg env p e.1 e.2) p).1.kubernetesNodesByCalicoName =
          st0.kubernetesNodesByCalicoName ∧
       ∀ c ∈ (l.foldl (fun p (e : String × List AllocId) => scanNode cfg env p e.1 e.2) p).2,
         ∃ kn, kubernetesNodeForCalico env st0 c = .ok kn) := by
  induction l with
  | nil => intro p h1 h2; exact ⟨h1, h2⟩
  | cons e t ih =>
    intro p h1 h2
    rw [List.foldl_cons]
    obtain ⟨hs1, hs2⟩ := scanNode_spec cfg env p e.1 e.2
    refine ih _ (by rw [hs1, h1]) ?_
    rcases hs2 with hsame | ⟨happ, kn, hok⟩
    · rw [hsame]; exact h2
    · rw [happ]
      intro c hc
      rcases List.mem_append.mp hc with hold | hnew
      · exact h2 c hold
      · rcases List.mem_singleton.mp hnew with rfl
        refine ⟨kn, ?_⟩
        rw [kubernetesNodeForCalico_congr env st0 p.1 e.1 h1.symm]
        exact hok

/-- Claim C10: `checkAllocations` always returns a nil error — every failure
to resolve a node's Kubernetes name (the not-a-Kubernetes-node sentinel or
a transient client error) skips that node instead of propagating, so the
scan step of `syncIPAM` never short-circuits the sync; in particular every
node put on the release list had a successful Kubernetes-name lookup. -/
theorem claim_c10_checkAllocations_never_errors (cfg : Config) (env : Env) (st : Caches) :
    (checkAllocations cfg env st).2.2 = none ∧
    ∀ cnode ∈ (checkAllocations cfg env st).2.1,
      ∃ knode, kubernetesNodeForCalico env st cnode = .ok knode := by
  constructor
  · rfl
  · intro cnode hmem
    have hkm : (if st.fullSyncRequired then { st with fullSyncRequired := false } else st).kubernetesNodesByCalicoName =
        st.kubernetesNodesByCalicoName := by
      split <;> rfl
    exact (scanFold_spec cfg env st (nodesToCheck st)
      (if st.fullSyncRequired then { st with fullSyncRequired := false } else st, [])
      hkm (by simp)).2 cnode hmem

/-! ## Concrete fixtures for witnesses and counterexamples -/

def cfg0 : Config := ⟨some 1000⟩

def emptyCaches : Caches :=
  { datastoreReady := true, fullSyncRequired := false, kubernetesNodesByCalicoName := []
    allBlocks := [], heap := [], allocationsByBlock := [], byNode := [], dirtyNodes := []
    handleAllocs := [], confirmedLeaks := [], nodesByBlock := [], blocksByNode := []
    emptyBlocks := [], blockTracker := [], allPools := [], poolsByBlock := []
    blocksByPool := [], reclamationEvents := [] }

/-- A confirmed-leak pod allocation whose node has been deleted. -/
def aGC : Allocation :=
  { ip := "10.0.0.1", handle := "h1", attrNode := "n1", attrNamespace := "ns1",
    attrPod := "p1", attrType := "", sequenceNumber := 0, block := "10.0.0.0/26",
    knode := "", leakedAt := none, confirmedLeak := true }

def cachesGC : Caches :=
  { emptyCaches with
    confirmedLeaks := [aGC.id]
    heap := [(aGC.id, aGC)]
    handleAllocs := [("h1", [aGC.id])] }

/-- Environment where the leaked pod is gone and `ReleaseIPs` fails with a
transient error having released nothing. -/
def envGCfail : Env :=
  { envC2 with
    podCacheLookup := fun _ _ => .notFound
    podAPILookup := fun _ _ => .notFound
    releaseIPs := fun _ => ([], some (.otherErr "transient")) }

def stGC : CState := ⟨.inSync, cachesGC⟩

def stC10 : Caches :=
  { emptyCaches with
    fullSyncRequired := true
    nodesByBlock := [("10.0.0.0/26", "n1")]
    kubernetesNodesByCalicoName := [("n1", "k1")] }

def blockC8 : Block :=
  { cidr := "10.0.0.0/26", affinity := some "host:n1", allocations := [],
    attributes := [], seqNumbers := [] }

/-- Witness for C10: a concrete full scan that puts node n1 on the release
list; the scan errors nowhere and n1's lookup succeeded. -/
theorem claim_c10_witness :
    (checkAllocations cfg0 envC2 stC10).2.2 = none ∧
    ∃ kn, kubernetesNodeForCalico envC2 stC10 "n1" = .ok kn :=
  ⟨(claim_c10_checkAllocations_never_errors cfg0 envC2 stC10).1,
   (claim_c10_checkAllocations_never_errors cfg0 envC2 stC10).2 "n1" (by decide)⟩

/-! ## Claim C7: retry scheduling around syncIPAM -/

/-- Claim C7 as stated: on every path that invokes `syncIPAM` — the
periodic-ticker path included — a non-nil error leads to `ScheduleRetry`
and a nil result leads to `Success`. -/
def claimC7Prop (cfg : Config) (env : Env) : Prop :=
  ∀ st : CState,
    ((syncIPAM cfg env (fullScanNextSync st)).map (fun r => r.2.1.isSome) = some true →
      (dispatchTick cfg env st).map (fun r => r.2) = some RetryAction.scheduleRetry) ∧
    ((syncIPAM cfg env (fullScanNextSync st)).map (fun r => r.2.1.isSome) = some false →
      (dispatchTick cfg env st).map (fun r => r.2) = some RetryAction.success) ∧
    ((syncIPAM cfg env st).map (fun r => r.2.1.isSome) = some true →
      (dispatchSyncKick cfg env st).map (fun r => r.2) = some RetryAction.scheduleRetry) ∧
    ((syncIPAM cfg env st).map (fun r => r.2.1.isSome) = some false →
      (dispatchSyncKick cfg env st).map (fun r => r.2) = some RetryAction.success)

/-- Counterexample to claim C7: on the periodic-ticker path (ipam.go
333-342) an error from `syncIPAM` is only logged — neither `ScheduleRetry`
nor `Success` is invoked — as shown by a concrete failing GC run. -/
theorem claim_c7_counterexample : ¬ claimC7Prop cfg0 envGCfail := by
  intro h
  have h1 := (h stGC).1 (by decide)
  exact absurd h1 (by decide)

/-- Claim C7 as amended: on the sync-channel path an error schedules a
retry and a nil result reports success, but the periodic-ticker path never
invokes the retry controller (its action is always noAction). -/
theorem claim_c7_amended (cfg : Config) (env : Env) (st : CState) :
    (∀ st1 e k, syncIPAM cfg env st = some (st1, some e, k) →
      dispatchSyncKick cfg env st = some (st1, .scheduleRetry)) ∧
    (∀ st1 k, syncIPAM cfg env st = some (st1, none, k) →
      dispatchSyncKick cfg env st = some (st1, .success)) ∧
    (∀ r, dispatchTick cfg env st = some r → r.2 = .noAction) := by
  refine ⟨?_, ?_, ?_⟩
  · intro st1 e k h
    unfold dispatchSyncKick
    rw [h]
  · intro st1 k h
    unfold dispatchSyncKick
    rw [h]
  · intro r h
    unfold dispatchTick at h
    cases hs : syncIPAM cfg env (fullScanNextSync st) with
    | none => rw [hs] at h; cases h
    | some v =>
      rw [hs] at h
      obtain ⟨s1, e1, k1⟩ := v
      cases h
      rfl

/-- Witness for the amended C7 theorem: the concrete failing GC run on the
sync-channel path schedules a retry. -/
theorem claim_c7_amended_witness :
    dispatchSyncKick cfg0 envGCfail stGC = some (stGC, .scheduleRetry) :=
  (claim_c7_amended cfg0 envGCfail stGC).1 stGC (.otherErr "transient") false (by decide)

/-! ## Claim C8: the InSync status gate -/

def isDataUpd : SyncerUpd → Bool
  | .status _ => false
  | _ => true

/-- Claim C8 as stated: data updates are ignored (no cache mutation) until
InSync has been observed, and an InSync status update unconditionally kicks
the sync channel. -/
def claimC8Prop (env : Env) : Prop :=
  (∀ st u, isDataUpd u = true → st.syncStatus ≠ .inSync → (handleUpdate env st u).1 = st) ∧
  (∀ st, (handleUpdate env st (.status .inSync)).2 = true)

/-- Counterexample to claim C8's first half: `handleUpdate` (ipam.go
373-403) dispatches data updates with no status gate, so a block update
arriving before InSync mutates the caches. -/
theorem claim_c8_counterexample : ¬ claimC8Prop envC2 := by
  intro h
  have hmut := h.1 ⟨.waitForDatastore, emptyCaches⟩
    (.blockUpd "10.0.0.0/26" (some blockC8)) (by decide) (by decide)
  exact absurd hmut (by decide)

/-- Claim C8 as amended: syncer data updates are applied to the caches
regardless of the sync status (the handlers neither read nor write it); the
InSync gate instead lives in `syncIPAM`, which does no work and reports
success unless the status is InSync (and the datastore ready); a status
update stores the new status and kicks the sync channel exactly when it is
InSync. -/
theorem claim_c8_amended (env : Env) :
    (∀ st s, (handleUpdate env st (.status s)).1 = { st with syncStatus := s } ∧
      ((handleUpdate env st (.status s)).2 = true ↔ s = .inSync)) ∧
    (∀ st u, isDataUpd u = true →
      (handleUpdate env st u).1.syncStatus = st.syncStatus ∧
      (∀ s2, (handleUpdate env { st with syncStatus := s2 } u).1.caches =
        (handleUpdate env st u).1.caches)) ∧
    (∀ cfg st, st.syncStatus ≠ .inSync → syncIPAM cfg env st = some (st, none, false)) := by
  refine ⟨?_, ?_, ?_⟩
  · intro st s
    exact ⟨rfl, by simp [handleUpdate]⟩
  · intro st u hu
    cases u with
    | status s => simp [isDataUpd] at hu
    | blockUpd key v => exact ⟨rfl, fun s2 => rfl⟩
    | nodeUpd n v => exact ⟨rfl, fun s2 => rfl⟩
    | poolUpd n v => exact ⟨rfl, fun s2 => rfl⟩
    | clusterInfoUpd v => exact ⟨rfl, fun s2 => rfl⟩
  · intro cfg st hs
    cases hd : st.caches.datastoreReady with
    | false => simp [syncIPAM, hd]
    | true => simp [syncIPAM, hd, hs]

/-- Witness for the amended C8 theorem: before InSync, `syncIPAM` does
nothing, while a block update still leaves the status untouched. -/
theorem claim_c8_amended_witness :
    syncIPAM cfg0 envC2 ⟨.resyncInProgress, emptyCaches⟩ =
      some (⟨.resyncInProgress, emptyCaches⟩, none, false) ∧
    (handleUpdate envC2 ⟨.resyncInProgress, emptyCaches⟩
      (.blockUpd "10.0.0.0/26" (some blockC8))).1.syncStatus = .resyncInProgress :=
  ⟨(claim_c8_amended envC2).2.2 cfg0 ⟨.resyncInProgress, emptyCaches⟩ (by decide),
   ((claim_c8_amended envC2).2.1 ⟨.resyncInProgress, emptyCaches⟩
     (.blockUpd "10.0.0.0/26" (some blockC8)) (by decide)).1⟩

/-! ## Claim C5: the GC batch cap and the residual self-kick -/

/-- The collection loop stops as soon as the batch reaches `maxBatchSize`
options (the break at ipam.go 1134-1136). -/
theorem gcCollectGo_length (env : Env) (ids : List AllocId) :
    ∀ st opts leaks, opts.length < maxBatchSize →
      (gcCollectGo env ids st opts leaks).2.1.length ≤ maxBatchSize := by
  induction ids with
  | nil => intro st opts leaks h; exact Nat.le_of_lt h
  | cons i t ih =>
    intro st opts leaks h
    unfold gcCollectGo
    cases hg : aget st.heap i with
    | none => exact ih st opts leaks h
    | some a =>
      dsimp only
      split
      · exact ih _ opts leaks h
      · split
        · exact ih st opts leaks h
        · split
          · simp only [List.length_append, List.length_cons, List.length_nil]
            omega
          · refine ih st _ _ ?_
            next hcont =>
              simp only [List.length_append, List.length_cons, List.length_nil,
                not_le] at hcont ⊢
              omega

/-- On a successful run past the gates, the kick flag of `syncIPAM` is
exactly "confirmed leaks remain". -/
theorem syncIPAM_success_shape (cfg : Config) (env : Env) (st : CState)
    (hready : st.caches.datastoreReady = true) (hsync : st.syncStatus = .inSync) :
    ∀ st1 k, syncIPAM cfg env st = some (st1, none, k) →
      k = decide (0 < st1.caches.confirmedLeaks.length) := by
  intro st1 k h
  unfold syncIPAM at h
  rw [hready, hsync] at h
  simp only [Bool.not_true, Bool.false_eq_true, if_false, ne_eq, not_true_eq_false] at h
  have hchk : (checkAllocations cfg env st.caches).2.2 = none := rfl
  rw [hchk] at h
  cases hgc : garbageCollectKnownLeaks env (checkAllocations cfg env st.caches).1 with
  | none => rw [hgc] at h; cases h
  | some p =>
    rw [hgc] at h
    obtain ⟨c2, e2⟩ := p
    cases e2 with
    | some e => simp only [Option.some.injEq, Prod.mk.injEq] at h; exact absurd h.2.1.symm (by simp)
    | none =>
      have hrub : (releaseUnusedBlocks cfg env c2).2.2 = none := rfl
      simp only [hrub] at h
      cases hrn : (releaseNodes env (checkAllocations cfg env st.caches).2.1
          (releaseUnusedBlocks cfg env c2).1).2 with
      | some e => rw [hrn] at h; simp only [Option.some.injEq, Prod.mk.injEq] at h
                  exact absurd h.2.1.symm (by simp)
      | none =>
        rw [hrn] at h
        simp only [Option.some.injEq, Prod.mk.injEq] at h
        obtain ⟨hst1, _, hk⟩ := h
        rw [← hst1, ← hk]

/-- Claim C5: every `ReleaseIPs` batch collected by the GC holds at most
10,000 options, and a successful `syncIPAM` pass kicks the sync channel
exactly when confirmed leaks remain in the index afterwards. -/
theorem claim_c5_batch_cap_and_residual_kick (cfg : Config) (env : Env) :
    (∀ st : Caches, (gcCollect env st).2.1.length ≤ maxBatchSize) ∧
    (∀ st st1 k, st.caches.datastoreReady = true → st.syncStatus = .inSync →
      syncIPAM cfg env st = some (st1, none, k) →
      (k = true ↔ st1.caches.confirmedLeaks ≠ [])) := by
  constructor
  · intro st
    exact gcCollectGo_length env st.confirmedLeaks st [] [] (by decide)
  · intro st st1 k hready hsync h
    rw [syncIPAM_success_shape cfg env st hready hsync st1 k h]
    simp [List.length_pos]

/-- A state with one confirmed leak whose handle also covers a second,
still-valid allocation: the GC must skip it, leaving a residual. -/
def aGC2 : Allocation := { aGC with ip := "10.0.0.2", confirmedLeak := false }

def cachesW5 : Caches :=
  { emptyCaches with
    confirmedLeaks := [aGC.id]
    heap := [(aGC.id, aGC), (aGC2.id, aGC2)]
    handleAllocs := [("h1", [aGC.id, aGC2.id])] }

def stW5 : CState := ⟨.inSync, cachesW5⟩

/-- Witness for C5: the concrete batch respects the cap, and the concrete
successful sync with a residual confirmed leak kicks the channel. -/
theorem claim_c5_witness :
    ((gcCollect envGCfail cachesW5).2.1.length ≤ maxBatchSize) ∧
    (true = true ↔ stW5.caches.confirmedLeaks ≠ []) :=
  ⟨(claim_c5_batch_cap_and_residual_kick cfg0 envGCfail).1 cachesW5,
   (claim_c5_batch_cap_and_residual_kick cfg0 envGCfail).2 stW5 stW5 true rfl rfl (by decide)⟩

/-! ## Claim C1: the GC collects only fully confirmed leaks

During the collection loop the only mutation is `markValid` on resurrected
entries, so the evolving state is related to the initial one by
`ResurrectedFrom`; every gate that passes mid-loop then also holds against
the initial state. -/

def ResurrectedFrom (st0 stM : Caches) : Prop :=
  stM.handleAllocs = st0.handleAllocs ∧
  ∀ i, aget stM.heap i = aget st0.heap i ∨
    ∃ a0, aget st0.heap i = some a0 ∧ aget stM.heap i = some a0.markValid

theorem resurrectedFrom_refl (st : Caches) : ResurrectedFrom st st :=
  ⟨rfl, fun _ => Or.inl rfl⟩

theorem markValid_idem (a : Allocation) : a.markValid.markValid = a.markValid := rfl

theorem resurrectedFrom_step (st0 stM : Caches) (i : AllocId) (a : Allocation)
    (hres : ResurrectedFrom st0 stM) (hget : aget stM.heap i = some a) :
    ResurrectedFrom st0 (resurrectLeak stM i a) := by
  refine ⟨hres.1, fun j => ?_⟩
  by_cases hj : j = i
  · subst hj
    rcases hres.2 j with heq | ⟨a0, h0, hM⟩
    · refine Or.inr ⟨a, by rw [← heq]; exact hget, ?_⟩
      show aget (aset stM.heap j a.markValid) j = some a.markValid
      exact aget_aset_self stM.heap j a.markValid
    · have ha : a = a0.markValid := by
        rw [hget] at hM
        exact Option.some_inj.mp hM
      refine Or.inr ⟨a0, h0, ?_⟩
      show aget (aset stM.heap j a.markValid) j = some a0.markValid
      rw [aget_aset_self stM.heap j a.markValid, ha, markValid_idem]
  · rcases hres.2 j with heq | ⟨a0, h0, hM⟩
    · exact Or.inl (by
        show aget (aset stM.heap i a.markValid) j = aget st0.heap j
        rw [aget_aset_ne stM.heap i j a.markValid hj, heq])
    · exact Or.inr ⟨a0, h0, by
        show aget (aset stM.heap i a.markValid) j = some a0.markValid
        rw [aget_aset_ne stM.heap i j a.markValid hj]
        exact hM⟩

theorem handleIsConfirmedLeak_of_resurrected (st0 stM : Caches)
    (h : ResurrectedFrom st0 stM) (hd : String)
    (hc : handleIsConfirmedLeak stM hd = true) :
    handleIsConfirmedLeak st0 hd = true := by
  unfold handleIsConfirmedLeak at hc ⊢
  rw [← h.1]
  rw [List.all_eq_true] at hc ⊢
  intro i hi
  have hci := hc i hi
  rcases h.2 i with heq | ⟨a0, h0, hM⟩
  · rw [← heq]
    exact hci
  · rw [hM] at hci
    simp [Allocation.markValid] at hci

/-- The property claim C1 asserts of every collected release option,
stated against the state the GC started from. -/
def gcOptP (env : Env) (st0 : Caches) (opt : ReleaseOptions) : Prop :=
  ∃ i a, i ∈ st0.confirmedLeaks ∧ aget st0.heap i = some a ∧
    opt = a.releaseOptions ∧
    allocationIsValid env a (a.knode == "") = false ∧
    handleIsConfirmedLeak st0 a.handle = true

theorem gcCollectGo_sound (env : Env) (st0 : Caches) :
    ∀ (ids : List AllocId) (st : Caches) (opts : List ReleaseOptions)
      (leaks : List (String × Allocation)),
      ResurrectedFrom st0 st → (∀ i ∈ ids, i ∈ st0.confirmedLeaks) →
      (∀ o ∈ opts, gcOptP env st0 o) →
      ∀ o ∈ (gcCollectGo env ids st opts leaks).2.1, gcOptP env st0 o := by
  intro ids
  induction ids with
  | nil => intro st opts leaks _ _ hopts o ho; exact hopts o ho
  | cons i t ih =>
    intro st opts leaks hres hids hopts o ho
    have hidt : ∀ j ∈ t, j ∈ st0.confirmedLeaks :=
      fun j hj => hids j (List.mem_cons_of_mem i hj)
    unfold gcCollectGo at ho
    cases hg : aget st.heap i with
    | none =>
      rw [hg] at ho
      exact ih st opts leaks hres hidt hopts o ho
    | some a =>
      rw [hg] at ho
      dsimp only at ho
      by_cases hv : allocationIsValid env a (a.knode == "") = true
      · rw [if_pos hv] at ho
        exact ih _ opts leaks (resurrectedFrom_step st0 st i a hres hg) hidt hopts o ho
      · rw [if_neg hv] at ho
        rw [Bool.not_eq_true] at hv
        by_cases hh : (!handleIsConfirmedLeak st a.handle) = true
        · rw [if_pos hh] at ho
          exact ih st opts leaks hres hidt hopts o ho
        · rw [if_neg hh] at ho
          have hh2 : handleIsConfirmedLeak st a.handle = true := by
            rcases Bool.eq_false_or_eq_true (handleIsConfirmedLeak st a.handle) with h1 | h1
            · exact h1
            · exact absurd (by rw [h1]; rfl) hh
          have hP : gcOptP env st0 a.releaseOptions := by
            rcases hres.2 i with heq | ⟨a0, h0, hM⟩
            · exact ⟨i, a, hids i (List.mem_cons_self i t), by rw [← heq]; exact hg, rfl, hv,
                handleIsConfirmedLeak_of_resurrected st0 st hres a.handle hh2⟩
            · have ha : a = a0.markValid := by
                rw [hg] at hM
                exact Option.some_inj.mp hM
              subst ha
              exact ⟨i, a0, hids i (List.mem_cons_self i t), h0, rfl, hv,
                handleIsConfirmedLeak_of_resurrected st0 st hres _ hh2⟩
          have hopts1 : ∀ o ∈ opts ++ [a.releaseOptions], gcOptP env st0 o := by
            intro o ho1
            rcases List.mem_append.mp ho1 with h1 | h2
            · exact hopts o h1
            · rw [List.mem_singleton.mp h2]
              exact hP
          by_cases hstop : maxBatchSize ≤ (opts ++ [a.releaseOptions]).length
          · rw [if_pos hstop] at ho
            exact hopts1 o ho
          · rw [if_neg hstop] at ho
            exact ih st _ _ hres hidt hopts1 o ho

/-- Claim C1: an allocation's options are collected for `IPAM.ReleaseIPs`
only if it is indexed in `confirmedLeaks`, its final re-verification via
`allocationIsValid` (cache-preferring exactly when its Kubernetes node is
empty) returned invalid, and the handle tracker confirms every allocation
sharing its handle. -/
theorem claim_c1_gc_releases_only_confirmed (env : Env) (st : Caches) :
    ∀ o ∈ (gcCollect env st).2.1,
      ∃ i a, i ∈ st.confirmedLeaks ∧ aget st.heap i = some a ∧
        o = a.releaseOptions ∧
        allocationIsValid env a (a.knode == "") = false ∧
        handleIsConfirmedLeak st a.handle = true :=
  fun o ho => gcCollectGo_sound env st st.confirmedLeaks st [] []
    (resurrectedFrom_refl st) (fun _ hi => hi) (by simp) o ho

/-- Witness for C1 at the concrete confirmed leak `aGC`. -/
theorem claim_c1_witness :
    ∃ i a, i ∈ cachesGC.confirmedLeaks ∧ aget cachesGC.heap i = some a ∧
      aGC.releaseOptions = a.releaseOptions ∧
      allocationIsValid envGCfail a (a.knode == "") = false ∧
      handleIsConfirmedLeak cachesGC a.handle = true :=
  claim_c1_gc_releases_only_confirmed envGCfail cachesGC aGC.releaseOptions (by decide)

/-! ## Claim C4: gates of releaseUnusedBlocks -/

theorem nodeIsBeingMigrated_congr (env : Env) (st1 st2 : Caches) (n : String)
    (h : st1.kubernetesNodesByCalicoName = st2.kubernetesNodesByCalicoName) :
    nodeIsBeingMigrated env st1 n = nodeIsBeingMigrated env st2 n := by
  unfold nodeIsBeingMigrated
  rw [kubernetesNodeForCalico_congr env st1 st2 n h]

theorem brtMarkEmpty_aget_ne (g : Option Int) (now : Int) (c x : String)
    (t : List (String × BlockReleaseStatus)) (hx : x ≠ c) :
    aget (brtMarkEmpty g now c t).2 x = aget t x := by
  unfold brtMarkEmpty
  cases h : aget t c with
  | none => exact aget_aset_ne t c x _ hx
  | some s =>
    cases s with
    | inUse => exact aget_aset_ne t c x _ hx
    | emptySince t0 => rfl

theorem brtMarkEmpty_congr (g : Option Int) (now : Int) (c : String)
    (t1 t2 : List (String × BlockReleaseStatus)) (h : aget t1 c = aget t2 c) :
    (brtMarkEmpty g now c t1).1 = (brtMarkEmpty g now c t2).1 := by
  unfold brtMarkEmpty
  rw [h]
  cases aget t2 c with
  | none => rfl
  | some s => cases s <;> rfl

theorem poolManagerOnBlockDeleted_frame (st : Caches) (c : String) :
    (poolManagerOnBlockDeleted st c).kubernetesNodesByCalicoName =
        st.kubernetesNodesByCalicoName ∧
      (poolManagerOnBlockDeleted st c).blocksByNode = st.blocksByNode ∧
      (poolManagerOnBlockDeleted st c).blockTracker = st.blockTracker := by
  unfold poolManagerOnBlockDeleted
  cases aget st.poolsByBlock c <;> exact ⟨rfl, rfl, rfl⟩

theorem filter_ne_nonempty {α : Type} [DecidableEq α] (l : List α) (c : α)
    (hnd : l.Nodup) (hlen : 1 < l.length) :
    l.filter (fun x => decide (x ≠ c)) ≠ [] := by
  match l with
  | [] => simp at hlen
  | [x] => simp at hlen
  | x :: y :: t =>
    rcases List.nodup_cons.mp hnd with ⟨hxn, _⟩
    by_cases hx : x = c
    · subst hx
      have hy : y ≠ x := fun h => hxn (h ▸ List.mem_cons_self y t)
      apply List.ne_nil_of_mem (a := y)
      rw [List.mem_filter]
      exact ⟨List.mem_cons_of_mem x (List.mem_cons_self y t), by simpa using hy⟩
    · apply List.ne_nil_of_mem (a := x)
      rw [List.mem_filter]
      exact ⟨List.mem_cons_self x (y :: t), by simpa using hx⟩

/-- The gate claim C4 asserts of every block whose affinity release is
attempted, stated against the state `releaseUnusedBlocks` started from. -/
def rubGateP (cfg : Config) (env : Env) (st0 : Caches) (b : String) : Prop :=
  ∃ n, (b, n) ∈ st0.emptyBlocks ∧
    1 < ((aget st0.blocksByNode n).getD []).length ∧
    nodeIsBeingMigrated env st0 n = .ok false ∧
    (brtMarkEmpty cfg.leakGracePeriod env.now b st0.blockTracker).1 = true

theorem releaseUnusedBlocksGo_spec (cfg : Config) (env : Env) (st0 : Caches) :
    ∀ (l : List (String × String)) (stM : Caches) (called : List String),
      (l.map Prod.fst).Nodup →
      (∀ e ∈ l, e ∈ st0.emptyBlocks) →
      stM.kubernetesNodesByCalicoName = st0.kubernetesNodesByCalicoName →
      (∀ n, ((aget stM.blocksByNode n).getD []) ⊆ ((aget st0.blocksByNode n).getD [])) →
      (∀ n, ((aget stM.blocksByNode n).getD []).Nodup) →
      (∀ e ∈ l, aget stM.blockTracker e.1 = aget st0.blockTracker e.1) →
      (∀ n, ((aget st0.blocksByNode n).getD []) ≠ [] →
        ((aget stM.blocksByNode n).getD []) ≠ []) →
      (∀ b ∈ called, rubGateP cfg env st0 b) →
      (∀ b ∈ (releaseUnusedBlocksGo cfg env l stM called).2, rubGateP cfg env st0 b) ∧
      (∀ n, ((aget st0.blocksByNode n).getD []) ≠ [] →
        ((aget (releaseUnusedBlocksGo cfg env l stM called).1.blocksByNode n).getD []) ≠ []) := by
  intro l
  induction l with
  | nil =>
    intro stM called _ _ _ _ _ _ hE hcalled
    exact ⟨hcalled, hE⟩
  | cons e rest ih =>
    obtain ⟨cidr, node⟩ := e
    intro stM called hnd hsub hkm hsubB hndB htr hE hcalled
    rcases List.nodup_cons.mp hnd with ⟨hhead, hnd2⟩
    have hsub2 : ∀ e ∈ rest, e ∈ st0.emptyBlocks :=
      fun e he => hsub e (List.mem_cons_of_mem _ he)
    have hne2 : ∀ e ∈ rest, e.1 ≠ cidr := by
      intro e he heq
      apply hhead
      rw [← heq]
      exact List.mem_map.mpr ⟨e, he, rfl⟩
    have htr2 : ∀ e ∈ rest, aget stM.blockTracker e.1 = aget st0.blockTracker e.1 :=
      fun e he => htr e (List.mem_cons_of_mem _ he)
    simp only [releaseUnusedBlocksGo]
    by_cases h1 : ((aget stM.blocksByNode node).getD []).length ≤ 1
    · rw [if_pos h1]
      exact ih stM called hnd2 hsub2 hkm hsubB hndB htr2 hE hcalled
    · rw [if_neg h1]
      cases hmig : nodeIsBeingMigrated env stM node with
      | error me =>
        refine ih _ called hnd2 hsub2 hkm hsubB hndB ?_ hE hcalled
        intro e he
        show aget (brtMarkInUse stM.blockTracker cidr) e.1 = aget st0.blockTracker e.1
        rw [brtMarkInUse, aget_aset_ne stM.blockTracker cidr e.1 _ (hne2 e he)]
        exact htr2 e he
      | ok migg =>
        cases migg with
        | true =>
          refine ih _ called hnd2 hsub2 hkm hsubB hndB ?_ hE hcalled
          intro e he
          show aget (brtMarkInUse stM.blockTracker cidr) e.1 = aget st0.blockTracker e.1
          rw [brtMarkInUse, aget_aset_ne stM.blockTracker cidr e.1 _ (hne2 e he)]
          exact htr2 e he
        | false =>
          have htrStep : ∀ e ∈ rest,
              aget (brtMarkEmpty cfg.leakGracePeriod env.now cidr stM.blockTracker).2 e.1 =
                aget st0.blockTracker e.1 := by
            intro e he
            rw [brtMarkEmpty_aget_ne cfg.leakGracePeriod env.now cidr e.1
              stM.blockTracker (hne2 e he)]
            exact htr2 e he
          cases hme : (brtMarkEmpty cfg.leakGracePeriod env.now cidr stM.blockTracker).1 with
          | false =>
            rw [if_pos (by simp [hme])]
            exact ih _ called hnd2 hsub2 hkm hsubB hndB htrStep hE hcalled
          | true =>
            rw [if_neg (by simp [hme])]
            cases hab : aget stM.allBlocks cidr with
            | none =>
              exact ih _ called hnd2 hsub2 hkm hsubB hndB htrStep hE hcalled
            | some blk =>
              have hP : rubGateP cfg env st0 cidr := by
                refine ⟨node, hsub (cidr, node) (List.mem_cons_self _ _), ?_, ?_, ?_⟩
                · have hle := (List.subperm_of_subset (hndB node) (hsubB node)).length_le
                  omega
                · rw [← nodeIsBeingMigrated_congr env stM st0 node hkm]
                  exact hmig
                · rw [← brtMarkEmpty_congr cfg.leakGracePeriod env.now cidr
                    stM.blockTracker st0.blockTracker (htr (cidr, node) (List.mem_cons_self _ _))]
                  exact hme
              have hcalled1 : ∀ b ∈ called ++ [cidr], rubGateP cfg env st0 b := by
                intro b hb
                rcases List.mem_append.mp hb with hb1 | hb2
                · exact hcalled b hb1
                · rw [List.mem_singleton.mp hb2]
                  exact hP
              cases hrel : env.releaseBlockAffinity cidr with
              | some err =>
                exact ih _ _ hnd2 hsub2 hkm hsubB hndB htrStep hE hcalled1
              | none =>
                cases hbnode : aget stM.blocksByNode node with
                | none =>
                  exact absurd (by rw [hbnode]; simp) h1
                | some ll =>
                  have hgetll : (aget stM.blocksByNode node).getD [] = ll := by
                    rw [hbnode]; rfl
                  refine ih _ _ hnd2 hsub2 (by rw [(poolManagerOnBlockDeleted_frame _ cidr).1]; exact hkm) ?_ ?_ ?_ ?_ hcalled1
                  · intro n
                    rw [(poolManagerOnBlockDeleted_frame _ cidr).2.1]
                    by_cases hn : n = node
                    · rw [hn]
                      show ((aget (aset stM.blocksByNode node
                        (ll.filter (fun c => decide (c ≠ cidr)))) node).getD []) ⊆ _
                      rw [aget_aset_self]
                      intro x hx
                      exact hsubB node (by
                        rw [hgetll]
                        exact (List.mem_filter.mp hx).1)
                    · show ((aget (aset stM.blocksByNode node
                        (ll.filter (fun c => decide (c ≠ cidr)))) n).getD []) ⊆ _
                      rw [aget_aset_ne stM.blocksByNode node n _ hn]
                      exact hsubB n
                  · intro n
                    rw [(poolManagerOnBlockDeleted_frame _ cidr).2.1]
                    by_cases hn : n = node
                    · rw [hn]
                      show ((aget (aset stM.blocksByNode node
                        (ll.filter (fun c => decide (c ≠ cidr)))) node).getD []).Nodup
                      rw [aget_aset_self]
                      refine List.Nodup.filter _ ?_
                      have := hndB node
                      rwa [hgetll] at this
                    · show ((aget (aset stM.blocksByNode node
                        (ll.filter (fun c => decide (c ≠ cidr)))) n).getD []).Nodup
                      rw [aget_aset_ne stM.blocksByNode node n _ hn]
                      exact hndB n
                  · intro e he
                    rw [(poolManagerOnBlockDeleted_frame _ cidr).2.2]
                    show aget (brtOnBlockDeleted
                      (brtMarkEmpty cfg.leakGracePeriod env.now cidr stM.blockTracker).2 cidr) e.1 = _
                    rw [brtOnBlockDeleted, aget_adel_ne _ cidr e.1 (hne2 e he)]
                    exact htrStep e he
                  · intro n hn0
                    rw [(poolManagerOnBlockDeleted_frame _ cidr).2.1]
                    by_cases hn : n = node
                    · rw [hn]
                      show ((aget (aset stM.blocksByNode node
                        (ll.filter (fun c => decide (c ≠ cidr)))) node).getD []) ≠ []
                      rw [aget_aset_self]
                      refine filter_ne_nonempty ll cidr ?_ ?_
                      · have := hndB node
                        rwa [hgetll] at this
                      · have h1x := h1
                        rw [hgetll] at h1x
                        omega
                    · show ((aget (aset stM.blocksByNode node
                        (ll.filter (fun c => decide (c ≠ cidr)))) n).getD []) ≠ []
                      rw [aget_aset_ne stM.blocksByNode node n _ hn]
                      exact hE n hn0

/-- Claim C4: `IPAM.ReleaseBlockAffinity` is invoked for a block only if its
owning node has more than one affine block, the node is not being migrated
from Flannel, and the block release tracker reports the block continuously
empty beyond the grace period; consequently a node whose affine-block set
is non-empty never has it emptied by `releaseUnusedBlocks` (in particular a
node with exactly one empty block keeps its last affinity). -/
theorem claim_c4_block_affinity_release_gates (cfg : Config) (env : Env) (st : Caches)
    (hnd : (st.emptyBlocks.map Prod.fst).Nodup)
    (hbn : ∀ n, ((aget st.blocksByNode n).getD []).Nodup) :
    (∀ b ∈ (releaseUnusedBlocks cfg env st).2.1, rubGateP cfg env st b) ∧
    (∀ n, ((aget st.blocksByNode n).getD []) ≠ [] →
      ((aget (releaseUnusedBlocks cfg env st).1.blocksByNode n).getD []) ≠ []) :=
  releaseUnusedBlocksGo_spec cfg env st st.emptyBlocks st [] hnd (fun _ he => he) rfl
    (fun _ => List.Subset.refl _) hbn (fun _ _ => rfl) (fun _ h => h) (by simp)

def blockB1 : Block :=
  { cidr := "10.1.0.0/26", affinity := some "host:n1", allocations := [],
    attributes := [], seqNumbers := [] }

/-- A node with two affine blocks, one empty past its grace period. -/
def stW4 : Caches :=
  { emptyCaches with
    emptyBlocks := [("10.1.0.0/26", "n1")]
    blocksByNode := [("n1", ["10.1.0.0/26", "10.1.0.64/26"])]
    blockTracker := [("10.1.0.0/26", .emptySince 0)]
    allBlocks := [("10.1.0.0/26", blockB1)]
    kubernetesNodesByCalicoName := [("n1", "k1")] }

def envW4 : Env :=
  { envC2 with
    now := 5000
    nodeListerGet := fun _ => .ok ⟨[]⟩ }

/-- Witness for C4: the concrete empty block is released with every gate
satisfied, and the node keeps its other block. -/
theorem claim_c4_witness :
    rubGateP cfg0 envW4 stW4 "10.1.0.0/26" ∧
    ((aget (releaseUnusedBlocks cfg0 envW4 stW4).1.blocksByNode "n1").getD []) ≠ [] := by
  have hbn : ∀ n, ((aget stW4.blocksByNode n).getD []).Nodup := by
    intro n
    show ((aget [("n1", ["10.1.0.0/26", "10.1.0.64/26"])] n).getD []).Nodup
    by_cases hn : ("n1" : String) = n
    · rw [show aget [("n1", ["10.1.0.0/26", "10.1.0.64/26"])] n =
        some ["10.1.0.0/26", "10.1.0.64/26"] from by rw [← hn]; rfl]
      decide
    · rw [show aget [("n1", ["10.1.0.0/26", "10.1.0.64/26"])] n = none from by
        simp [aget, hn]]
      decide
  have h := claim_c4_block_affinity_release_gates cfg0 envW4 stW4 (by decide) hbn
  exact ⟨h.1 "10.1.0.0/26" (by decide), h.2 "n1" (by decide)⟩

/-! ## Claim C9: allocated slots without a handle -/

/-- The node named by the block's affinity ("" when there is none or it is
not host-prefixed). -/
def affinityNode (b : Block) : String :=
  match b.affinity with
  | some aff => if hasHostAffinityMarker aff then stripHostAffinityMarker aff else ""
  | none => ""

/-- The number of allocated slots in the block, with or without handle
(the `numAllocationsInBlock` counter of ipam.go 490-497). -/
def countAllocated (b : Block) : Nat :=
  (b.allocations.filter (fun s => s.isSome)).length

/-- An id contributed by an allocated slot that carries a primary handle. -/
def HandledSlotId (env : Env) (b : Block) (i : AllocId) : Prop :=
  ∃ ord idx, (ord, some idx) ∈ b.allocations.enum ∧
    ∃ h, (b.attributes.getD idx ⟨none, "", "", "", ""⟩).attrPrimary = some h ∧
      i = (mkAllocFromSlot env b ord (b.attributes.getD idx ⟨none, "", "", "", ""⟩) h).id

theorem applyAffinity_frame (st : Caches) (b : Block) :
    (applyAffinity st b).1.allocationsByBlock = st.allocationsByBlock ∧
    (applyAffinity st b).1.byNode = st.byNode ∧
    (applyAffinity st b).1.handleAllocs = st.handleAllocs ∧
    (applyAffinity st b).1.emptyBlocks = st.emptyBlocks ∧
    (applyAffinity st b).1.blockTracker = st.blockTracker := by
  unfold applyAffinity
  cases b.affinity with
  | some aff =>
    dsimp only
    split <;> exact ⟨rfl, rfl, rfl, rfl, rfl⟩
  | none =>
    dsimp only
    cases aget st.nodesByBlock b.cidr <;> exact ⟨rfl, rfl, rfl, rfl, rfl⟩

theorem applyAffinity_snd (st : Caches) (b : Block) :
    (applyAffinity st b).2 = affinityNode b := by
  unfold applyAffinity affinityNode
  cases b.affinity with
  | some aff =>
    dsimp only
    split <;> rfl
  | none =>
    dsimp only
    cases aget st.nodesByBlock b.cidr <;> rfl

theorem mem_getD_aset {κ α : Type} [DecidableEq κ] (m : List (κ × List α)) (k n : κ)
    (v : List α) (i : α) (h : i ∈ (aget (aset m k v) n).getD []) :
    (n = k ∧ i ∈ v) ∨ (n ≠ k ∧ i ∈ (aget m n).getD []) := by
  by_cases hk : n = k
  · subst hk
    rw [aget_aset_self] at h
    exact Or.inl ⟨rfl, h⟩
  · rw [aget_aset_ne m k n v hk] at h
    exact Or.inr ⟨hk, h⟩

theorem mem_getD_of_aset_subset {κ α : Type} [DecidableEq κ] (m : List (κ × List α))
    (k n : κ) (v : List α) (i : α)
    (hsub : ∀ x ∈ v, x ∈ (aget m k).getD [])
    (h : i ∈ (aget (aset m k v) n).getD []) : i ∈ (aget m n).getD [] := by
  rcases mem_getD_aset m k n v i h with ⟨heq, hv⟩ | ⟨_, hm⟩
  · rw [heq]
    exact hsub i hv
  · exact hm

theorem mem_getD_adel {κ α : Type} [DecidableEq κ] (m : List (κ × List α)) (k n : κ) (i : α)
    (h : i ∈ (aget (adel m k) n).getD []) : i ∈ (aget m n).getD [] := by
  by_cases hk : n = k
  · subst hk
    rw [aget_adel_self] at h
    simp at h
  · rw [aget_adel_ne m k n hk] at h
    exact h

theorem mem_of_sinsert {κ : Type} [DecidableEq κ] (l : List κ) (x i : κ)
    (h : i ∈ sinsert l x) : i ∈ l ∨ i = x := by
  unfold sinsert at h
  split at h
  · exact Or.inl h
  · rcases List.mem_append.mp h with h1 | h1
    · exact Or.inl h1
    · exact Or.inr (List.mem_singleton.mp h1)

theorem allocationStateRelease_frame (st : Caches) (a : Allocation) :
    (allocationStateRelease st a).allocationsByBlock = st.allocationsByBlock ∧
    (allocationStateRelease st a).handleAllocs = st.handleAllocs ∧
    (allocationStateRelease st a).emptyBlocks = st.emptyBlocks ∧
    (allocationStateRelease st a).blockTracker = st.blockTracker := by
  unfold allocationStateRelease
  cases aget st.byNode a.node <;> exact ⟨rfl, rfl, rfl, rfl⟩

theorem allocationStateRelease_byNode_mono (st : Caches) (a : Allocation) (n : String)
    (i : AllocId) (h : i ∈ (aget (allocationStateRelease st a).byNode n).getD []) :
    i ∈ (aget st.byNode n).getD [] := by
  unfold allocationStateRelease at h
  cases hb : aget st.byNode a.node with
  | none =>
    rw [hb] at h
    exact h
  | some l =>
    rw [hb] at h
    refine mem_getD_of_aset_subset st.byNode a.node n _ i ?_ h
    intro x hx
    rw [hb]
    exact List.mem_of_mem_filter hx

theorem handleTrackerRemove_handleAllocs_mono (st : Caches) (a : Allocation) (hd : String)
    (i : AllocId) (h : i ∈ (aget (handleTrackerRemove st a).handleAllocs hd).getD []) :
    i ∈ (aget st.handleAllocs hd).getD [] := by
  unfold handleTrackerRemove at h
  dsimp only at h
  split at h
  · exact mem_getD_adel st.handleAllocs a.handle hd i h
  · refine mem_getD_of_aset_subset st.handleAllocs a.handle hd _ i ?_ h
    intro x hx
    exact List.mem_of_mem_filter hx

theorem removeStale_mono (cidr : String) (cur : List AllocId) :
    ∀ (ids : List AllocId) (st : Caches),
      (∀ n i, i ∈ (aget (removeStale cidr cur ids st).allocationsByBlock n).getD [] →
        i ∈ (aget st.allocationsByBlock n).getD []) ∧
      (∀ n i, i ∈ (aget (removeStale cidr cur ids st).byNode n).getD [] →
        i ∈ (aget st.byNode n).getD []) ∧
      (∀ h i, i ∈ (aget (removeStale cidr cur ids st).handleAllocs h).getD [] →
        i ∈ (aget st.handleAllocs h).getD []) ∧
      (removeStale cidr cur ids st).emptyBlocks = st.emptyBlocks ∧
      (removeStale cidr cur ids st).blockTracker = st.blockTracker := by
  intro ids
  induction ids with
  | nil => intro st; exact ⟨fun _ _ h => h, fun _ _ h => h, fun _ _ h => h, rfl, rfl⟩
  | cons j rest ih =>
    intro st
    simp only [removeStale]
    split
    · exact ih st
    · cases hj : aget st.heap j with
      | none => exact ih st
      | some alloc =>
        dsimp only
        set st1 := handleTrackerRemove st alloc with hst1
        set st2 :=
          { st1 with
            allocationsByBlock :=
              aset st1.allocationsByBlock cidr
                (((aget st1.allocationsByBlock cidr).getD []).filter
                  (fun x => decide (x ≠ j))) } with hst2
        set st3 := if alloc.node ≠ "" then allocationStateRelease st2 alloc else st2 with hst3
        set st4 :=
          { st3 with
            confirmedLeaks := st3.confirmedLeaks.filter (fun x => decide (x ≠ j))
            heap := adel st3.heap j } with hst4
        obtain ⟨ihA, ihB, ihH, ihE, ihT⟩ := ih st4
        have hA3 : st3.allocationsByBlock = st2.allocationsByBlock := by
          rw [hst3]
          split
          · exact (allocationStateRelease_frame st2 alloc).1
          · rfl
        have hH3 : st3.handleAllocs = st2.handleAllocs := by
          rw [hst3]
          split
          · exact (allocationStateRelease_frame st2 alloc).2.1
          · rfl
        have hE3 : st3.emptyBlocks = st2.emptyBlocks := by
          rw [hst3]
          split
          · exact (allocationStateRelease_frame st2 alloc).2.2.1
          · rfl
        have hT3 : st3.blockTracker = st2.blockTracker := by
          rw [hst3]
          split
          · exact (allocationStateRelease_frame st2 alloc).2.2.2
          · rfl
        refine ⟨?_, ?_, ?_, ?_, ?_⟩
        · intro n i h
          have h4 := ihA n i h
          rw [hst4] at h4
          dsimp only at h4
          rw [hA3, hst2] at h4
          dsimp only at h4
          exact mem_getD_of_aset_subset st1.allocationsByBlock cidr n _ i
            (fun x hx => List.mem_of_mem_filter hx) h4
        · intro n i h
          have h4 := ihB n i h
          rw [hst4] at h4
          dsimp only at h4
          have h3 : i ∈ (aget st2.byNode n).getD [] := by
            rw [hst3] at h4
            by_cases hnode : alloc.node ≠ ""
            · rw [if_pos hnode] at h4
              exact allocationStateRelease_byNode_mono st2 alloc n i h4
            · rw [if_neg hnode] at h4
              exact h4
          exact h3
        · intro hd i h
          have h4 := ihH hd i h
          rw [hst4] at h4
          dsimp only at h4
          rw [hH3, hst2] at h4
          dsimp only at h4
          exact handleTrackerRemove_handleAllocs_mono st alloc hd i h4
        · rw [ihE, hst4]
          dsimp only
          rw [hE3, hst2]
          rfl
        · rw [ihT, hst4]
          dsimp only
          rw [hT3, hst2]
          rfl

theorem allocationStateAllocate_frame (st : Caches) (a : Allocation) :
    (allocationStateAllocate st a).allocationsByBlock = st.allocationsByBlock ∧
    (allocationStateAllocate st a).handleAllocs = st.handleAllocs ∧
    (allocationStateAllocate st a).emptyBlocks = st.emptyBlocks ∧
    (allocationStateAllocate st a).blockTracker = st.blockTracker :=
  ⟨rfl, rfl, rfl, rfl⟩

theorem mem_getD_aset_sinsert {κ α : Type} [DecidableEq κ] [DecidableEq α]
    (m : List (κ × List α)) (k n : κ) (x : α) (i : α)
    (h : i ∈ (aget (aset m k (sinsert ((aget m k).getD []) x)) n).getD []) :
    i ∈ (aget m n).getD [] ∨ i = x := by
  rcases mem_getD_aset m k n _ i h with ⟨heq, hv⟩ | ⟨_, hm⟩
  · rcases mem_of_sinsert _ x i hv with h1 | h1
    · rw [heq]
      exact Or.inl h1
    · exact Or.inr h1
  · exact Or.inl hm

theorem processSlots_spec (env : Env) (b : Block) :
    ∀ (slots : List (Nat × Option Nat)) (st : Caches) (cur : List AllocId) (num : Nat),
      (∀ e ∈ slots, e ∈ b.allocations.enum) →
      ((∀ i, i ∈ (aget (processSlots env b slots st cur num).1.allocationsByBlock b.cidr).getD [] →
         i ∈ (aget st.allocationsByBlock b.cidr).getD [] ∨ HandledSlotId env b i) ∧
       (∀ n i, i ∈ (aget (processSlots env b slots st cur num).1.byNode n).getD [] →
         i ∈ (aget st.byNode n).getD [] ∨ HandledSlotId env b i) ∧
       (∀ h i, i ∈ (aget (processSlots env b slots st cur num).1.handleAllocs h).getD [] →
         i ∈ (aget st.handleAllocs h).getD [] ∨ HandledSlotId env b i) ∧
       (processSlots env b slots st cur num).2.2 =
         num + (slots.filter (fun e => e.2.isSome)).length ∧
       (processSlots env b slots st cur num).1.emptyBlocks = st.emptyBlocks ∧
       (processSlots env b slots st cur num).1.blockTracker = st.blockTracker) := by
  intro slots
  induction slots with
  | nil =>
    intro st cur num _
    exact ⟨fun _ h => Or.inl h, fun _ _ h => Or.inl h, fun _ _ h => Or.inl h,
      by simp [processSlots], rfl, rfl⟩
  | cons e rest ih =>
    intro st cur num hin
    obtain ⟨ord, sl⟩ := e
    have hinr : ∀ e ∈ rest, e ∈ b.allocations.enum :=
      fun e he => hin e (List.mem_cons_of_mem _ he)
    cases sl with
    | none =>
      obtain ⟨iA, iB, iH, iC, iE, iT⟩ := ih st cur num hinr
      exact ⟨iA, iB, iH, by rw [show (processSlots env b ((ord, none) :: rest) st cur num).2.2 =
        (processSlots env b rest st cur num).2.2 from rfl, iC]; simp [List.filter_cons], iE, iT⟩
    | some idx =>
      cases hat : (b.attributes.getD idx ⟨none, "", "", "", ""⟩).attrPrimary with
      | none =>
        obtain ⟨iA, iB, iH, iC, iE, iT⟩ := ih st cur (num + 1) hinr
        refine ⟨?_, ?_, ?_, ?_, ?_, ?_⟩ <;> simp only [processSlots, hat]
        · exact iA
        · exact iB
        · exact iH
        · rw [iC]
          simp [List.filter_cons]
          omega
        · exact iE
        · exact iT
      | some hdl =>
        by_cases hknown : ((aget st.allocationsByBlock b.cidr).getD []).contains
            (mkAllocFromSlot env b ord (b.attributes.getD idx ⟨none, "", "", "", ""⟩) hdl).id
        · obtain ⟨iA, iB, iH, iC, iE, iT⟩ := ih st
            (cur ++ [(mkAllocFromSlot env b ord (b.attributes.getD idx ⟨none, "", "", "", ""⟩) hdl).id])
            (num + 1) hinr
          refine ⟨?_, ?_, ?_, ?_, ?_, ?_⟩ <;> simp only [processSlots, hat, if_pos hknown]
          · exact iA
          · exact iB
          · exact iH
          · rw [iC]
            simp [List.filter_cons]
            omega
          · exact iE
          · exact iT
        · set alloc := mkAllocFromSlot env b ord (b.attributes.getD idx ⟨none, "", "", "", ""⟩) hdl
            with halloc
          set st1 :=
            { st with
              heap := aset st.heap alloc.id alloc
              allocationsByBlock :=
                aset st.allocationsByBlock b.cidr
                  (((aget st.allocationsByBlock b.cidr).getD []) ++ [alloc.id]) } with hst1
          set st2 := if alloc.node ≠ "" then allocationStateAllocate st1 alloc else st1 with hst2
          set st3 := handleTrackerSet st2 alloc with hst3
          obtain ⟨iA, iB, iH, iC, iE, iT⟩ := ih st3 (cur ++ [alloc.id]) (num + 1) hinr
          have hHand : HandledSlotId env b alloc.id :=
            ⟨ord, idx, hin (ord, some idx) (List.mem_cons_self _ _), hdl, hat, rfl⟩
          have hA2 : st2.allocationsByBlock = st1.allocationsByBlock := by
            rw [hst2]
            split
            · exact (allocationStateAllocate_frame st1 alloc).1
            · rfl
          have hH2 : st2.handleAllocs = st1.handleAllocs := by
            rw [hst2]
            split
            · exact (allocationStateAllocate_frame st1 alloc).2.1
            · rfl
          have hE2 : st2.emptyBlocks = st1.emptyBlocks := by
            rw [hst2]
            split
            · exact (allocationStateAllocate_frame st1 alloc).2.2.1
            · rfl
          have hT2 : st2.blockTracker = st1.blockTracker := by
            rw [hst2]
            split
            · exact (allocationStateAllocate_frame st1 alloc).2.2.2
            · rfl
          have hA3 : st3.allocationsByBlock = st1.allocationsByBlock := by
            rw [hst3]
            rw [show (handleTrackerSet st2 alloc).allocationsByBlock =
              st2.allocationsByBlock from rfl, hA2]
          refine ⟨?_, ?_, ?_, ?_, ?_, ?_⟩ <;> simp only [processSlots, hat, if_neg hknown]
          · intro i h
            rcases iA i h with hOld | hH
            · rw [hA3, hst1] at hOld
              dsimp only at hOld
              rw [aget_aset_self] at hOld
              rcases List.mem_append.mp hOld with h2 | h2
              · exact Or.inl h2
              · refine Or.inr ?_
                rw [List.mem_singleton.mp h2]
                exact hHand
            · exact Or.inr hH
          · intro n i h
            rcases iB n i h with hOld | hH
            · rw [hst3] at hOld
              rw [show (handleTrackerSet st2 alloc).byNode = st2.byNode from rfl] at hOld
              rw [hst2] at hOld
              by_cases hnode : alloc.node ≠ ""
              · rw [if_pos hnode] at hOld
                unfold allocationStateAllocate at hOld
                dsimp only at hOld
                rcases mem_getD_aset_sinsert st1.byNode alloc.node n alloc.id i hOld with h2 | h2
                · exact Or.inl h2
                · refine Or.inr ?_
                  rw [h2]
                  exact hHand
              · rw [if_neg hnode] at hOld
                exact Or.inl hOld
            · exact Or.inr hH
          · intro hd i h
            rcases iH hd i h with hOld | hH
            · rw [hst3] at hOld
              unfold handleTrackerSet at hOld
              dsimp only at hOld
              rw [hH2] at hOld
              rcases mem_getD_aset_sinsert st1.handleAllocs alloc.handle hd alloc.id i hOld
                with h2 | h2
              · exact Or.inl h2
              · refine Or.inr ?_
                rw [h2]
                exact hHand
            · exact Or.inr hH
          · rw [iC]
            simp [List.filter_cons]
            omega
          · rw [iE, hst3]
            rw [show (handleTrackerSet st2 alloc).emptyBlocks = st2.emptyBlocks from rfl, hE2]
          · rw [iT, hst3]
            rw [show (handleTrackerSet st2 alloc).blockTracker = st2.blockTracker from rfl, hT2]

theorem enumFrom_filter_isSome_length (l : List (Option Nat)) :
    ∀ k, ((List.enumFrom k l).filter (fun e => e.2.isSome)).length =
      (l.filter (fun s => s.isSome)).length := by
  induction l with
  | nil => intro k; rfl
  | cons x t ih =>
    intro k
    cases x <;> simp [List.enumFrom, List.filter_cons, ih]

theorem blockEmptyUpdate_spec (cidr n : String) (num : Nat) (st : Caches) :
    (blockEmptyUpdate cidr n num st).allocationsByBlock = st.allocationsByBlock ∧
    (blockEmptyUpdate cidr n num st).byNode = st.byNode ∧
    (blockEmptyUpdate cidr n num st).handleAllocs = st.handleAllocs ∧
    aget (blockEmptyUpdate cidr n num st).emptyBlocks cidr =
      (if n ≠ "" ∧ num = 0 then some n else none) := by
  unfold blockEmptyUpdate
  dsimp only
  by_cases hc : n ≠ "" ∧ num = 0
  · rw [if_pos hc, if_pos hc]
    exact ⟨rfl, rfl, rfl, aget_aset_self _ cidr n⟩
  · rw [if_neg hc, if_neg hc]
    split
    · exact ⟨rfl, rfl, rfl, aget_adel_self st.emptyBlocks cidr⟩
    · exact ⟨rfl, rfl, rfl, aget_adel_self st.emptyBlocks cidr⟩

theorem poolManagerOnBlockUpdated_frame (env : Env) (st : Caches) (cidr : String) :
    (poolManagerOnBlockUpdated env st cidr).allocationsByBlock = st.allocationsByBlock ∧
    (poolManagerOnBlockUpdated env st cidr).byNode = st.byNode ∧
    (poolManagerOnBlockUpdated env st cidr).handleAllocs = st.handleAllocs ∧
    (poolManagerOnBlockUpdated env st cidr).emptyBlocks = st.emptyBlocks := by
  unfold poolManagerOnBlockUpdated
  dsimp only
  cases aget st.poolsByBlock cidr with
  | none => exact ⟨rfl, rfl, rfl, rfl⟩
  | some old =>
    dsimp only
    split
    · exact ⟨rfl, rfl, rfl, rfl⟩
    · exact ⟨rfl, rfl, rfl, rfl⟩

/-- Claim C9 as amended: an allocated slot without a primary handle
contributes no allocation entry to the block index, the per-node view or
the handle tracker — every id newly present there comes from a slot with a
handle — but it still counts toward the block's allocation count, so the
block is tracked as empty exactly when it is affine and has zero allocated
slots (with or without handle). -/
theorem claim_c9_amended (env : Env) (st : Caches) (b : Block) :
    (∀ i, i ∈ (aget (onBlockUpdated env st b).allocationsByBlock b.cidr).getD [] →
      i ∈ (aget st.allocationsByBlock b.cidr).getD [] ∨ HandledSlotId env b i) ∧
    (∀ n i, i ∈ (aget (onBlockUpdated env st b).byNode n).getD [] →
      i ∈ (aget st.byNode n).getD [] ∨ HandledSlotId env b i) ∧
    (∀ h i, i ∈ (aget (onBlockUpdated env st b).handleAllocs h).getD [] →
      i ∈ (aget st.handleAllocs h).getD [] ∨ HandledSlotId env b i) ∧
    aget (onBlockUpdated env st b).emptyBlocks b.cidr =
      (if affinityNode b ≠ "" ∧ countAllocated b = 0 then some (affinityNode b) else none) := by
  obtain ⟨pA, pB, pH, pC, pE, pT⟩ := processSlots_spec env b b.allocations.enum
    (applyAffinity st b).1 [] 0 (fun _ he => he)
  obtain ⟨aA, aB, aH, aE, aT⟩ := applyAffinity_frame st b
  have hsnd := applyAffinity_snd st b
  obtain ⟨bA, bB, bH, bE⟩ := blockEmptyUpdate_spec b.cidr (applyAffinity st b).2
    (processSlots env b b.allocations.enum (applyAffinity st b).1 [] 0).2.2
    (processSlots env b b.allocations.enum (applyAffinity st b).1 [] 0).1
  obtain ⟨rA, rB, rH, rE, rT⟩ := removeStale_mono b.cidr
    (processSlots env b b.allocations.enum (applyAffinity st b).1 [] 0).2.1
    ((aget (blockEmptyUpdate b.cidr (applyAffinity st b).2
        (processSlots env b b.allocations.enum (applyAffinity st b).1 [] 0).2.2
        (processSlots env b b.allocations.enum (applyAffinity st b).1 [] 0).1).allocationsByBlock
      b.cidr).getD [])
    (blockEmptyUpdate b.cidr (applyAffinity st b).2
      (processSlots env b b.allocations.enum (applyAffinity st b).1 [] 0).2.2
      (processSlots env b b.allocations.enum (applyAffinity st b).1 [] 0).1)
  obtain ⟨fA, fB, fH, fE⟩ := poolManagerOnBlockUpdated_frame env
    (removeStale b.cidr
      (processSlots env b b.allocations.enum (applyAffinity st b).1 [] 0).2.1
      ((aget (blockEmptyUpdate b.cidr (applyAffinity st b).2
          (processSlots env b b.allocations.enum (applyAffinity st b).1 [] 0).2.2
          (processSlots env b b.allocations.enum (applyAffinity st b).1 [] 0).1).allocationsByBlock
        b.cidr).getD [])
      (blockEmptyUpdate b.cidr (applyAffinity st b).2
        (processSlots env b b.allocations.enum (applyAffinity st b).1 [] 0).2.2
        (processSlots env b b.allocations.enum (applyAffinity st b).1 [] 0).1)) b.cidr
  have hnum : (processSlots env b b.allocations.enum (applyAffinity st b).1 [] 0).2.2 =
      countAllocated b := by
    rw [pC, Nat.zero_add]
    exact enumFrom_filter_isSome_length b.allocations 0
  refine ⟨?_, ?_, ?_, ?_⟩
  · intro i h
    have h5 : i ∈ (aget (onBlockUpdated env st b).allocationsByBlock b.cidr).getD [] := h
    rw [show (onBlockUpdated env st b).allocationsByBlock = _ from fA] at h5
    have h4 := rA b.cidr i h5
    rw [bA] at h4
    rcases pA i h4 with h1 | h1
    · rw [aA] at h1
      exact Or.inl h1
    · exact Or.inr h1
  · intro n i h
    have h5 : i ∈ (aget (onBlockUpdated env st b).byNode n).getD [] := h
    rw [show (onBlockUpdated env st b).byNode = _ from fB] at h5
    have h4 := rB n i h5
    rw [bB] at h4
    rcases pB n i h4 with h1 | h1
    · rw [aB] at h1
      exact Or.inl h1
    · exact Or.inr h1
  · intro hd i h
    have h5 : i ∈ (aget (onBlockUpdated env st b).handleAllocs hd).getD [] := h
    rw [show (onBlockUpdated env st b).handleAllocs = _ from fH] at h5
    have h4 := rH hd i h5
    rw [bH] at h4
    rcases pH hd i h4 with h1 | h1
    · rw [aH] at h1
      exact Or.inl h1
    · exact Or.inr h1
  · have hfin : (onBlockUpdated env st b).emptyBlocks = _ := fE
    rw [hfin, rE, ← hsnd, ← hnum]
    exact bE

/-- Normalize away the raw block storage, which trivially records the
incoming block value. -/
def eraseRawBlocks (st : Caches) : Caches := { st with allBlocks := [] }

/-- Replace every allocated slot whose attribute record lacks a primary
handle by an unallocated slot. -/
def nilNoHandleSlots (b : Block) : Block :=
  { b with
    allocations := b.allocations.map (fun s =>
      match s with
      | none => none
      | some idx =>
        if (b.attributes.getD idx ⟨none, "", "", "", ""⟩).attrPrimary.isNone then none
        else some idx) }

/-- Claim C9 as stated: beyond producing no allocation entry, a no-handle
slot has no effect on the controller's state — processing a block is the
same as processing it with such slots unallocated (raw block storage
aside). -/
def claimC9Prop (env : Env) : Prop :=
  ∀ st b, eraseRawBlocks (onBlockUpdated env st b) =
    eraseRawBlocks (onBlockUpdated env st (nilNoHandleSlots b))

def attrNoHandle : AttrRecord :=
  { attrPrimary := none, attrNode := "n1", attrNamespace := "", attrPod := "", attrType := "" }

def blockC9 : Block :=
  { cidr := "10.2.0.0/26", affinity := some "host:n1", allocations := [some 0],
    attributes := [attrNoHandle], seqNumbers := [] }

/-- Counterexample to claim C9's "no effect on the controller's state": a
no-handle slot still increments the allocation count (ipam.go 497 precedes
the handle check at 502-504), so an affine block holding only a no-handle
allocation is not tracked as empty, while the same block with the slot
unallocated is. -/
theorem claim_c9_counterexample : ¬ claimC9Prop envC2 := by
  intro h
  have hc := h emptyCaches blockC9
  exact absurd hc (by decide)

def attrWithHandle : AttrRecord :=
  { attrPrimary := some "hw", attrNode := "n1", attrNamespace := "nsw", attrPod := "pw",
    attrType := "" }

def blockW9 : Block :=
  { cidr := "10.2.0.0/26", affinity := some "host:n1", allocations := [some 0, some 1],
    attributes := [attrNoHandle, attrWithHandle], seqNumbers := [] }

/-- Witness for the amended C9 theorem: in a block holding a no-handle slot
and a handled slot, the indexed id is the handled one, and the block is not
tracked as empty. -/
theorem claim_c9_witness :
    ((mkAllocFromSlot envC2 blockW9 1 attrWithHandle "hw").id ∈
        (aget emptyCaches.allocationsByBlock "10.2.0.0/26").getD [] ∨
      HandledSlotId envC2 blockW9 (mkAllocFromSlot envC2 blockW9 1 attrWithHandle "hw").id) ∧
    aget (onBlockUpdated envC2 emptyCaches blockW9).emptyBlocks "10.2.0.0/26" = none :=
  ⟨(claim_c9_amended envC2 emptyCaches blockW9).1 _ (by decide),
   ((claim_c9_amended envC2 emptyCaches blockW9).2.2.2).trans (by decide)⟩

/-! ## Claim C3: processing of the options returned by ReleaseIPs -/

theorem mem_aset {κ α : Type} [DecidableEq κ] (l : List (κ × α)) (k : κ) (v : α) :
    ∀ pr ∈ aset l k v, pr ∈ l ∨ pr = (k, v) := by
  induction l with
  | nil =>
    intro pr h
    simp [aset] at h
    exact Or.inr h
  | cons p rest ih =>
    intro pr h
    obtain ⟨k1, v1⟩ := p
    by_cases hk : k1 = k
    · simp only [aset, if_pos hk] at h
      rcases List.mem_cons.mp h with h1 | h1
      · exact Or.inr h1
      · exact Or.inl (List.mem_cons_of_mem _ h1)
    · simp only [aset, if_neg hk] at h
      rcases List.mem_cons.mp h with h1 | h1
      · exact Or.inl (h1 ▸ List.mem_cons_self _ _)
      · rcases ih pr h1 with h2 | h2
        · exact Or.inl (List.mem_cons_of_mem _ h2)
        · exact Or.inr h2

theorem aget_mem {κ α : Type} [DecidableEq κ] (l : List (κ × α)) (k : κ) (v : α)
    (h : aget l k = some v) : (k, v) ∈ l := by
  induction l with
  | nil => simp [aget] at h
  | cons p rest ih =>
    obtain ⟨k1, v1⟩ := p
    by_cases hk : k1 = k
    · rw [aget, if_pos hk] at h
      have hv := Option.some_inj.mp h
      rw [← hk, ← hv]
      exact List.mem_cons_self _ _
    · rw [aget, if_neg hk] at h
      exact List.mem_cons_of_mem _ (ih h)

theorem gcCollectGo_leaks_addr (env : Env) :
    ∀ (ids : List AllocId) (st : Caches) (opts : List ReleaseOptions)
      (leaks : List (String × Allocation)),
      (∀ pr ∈ leaks, pr.1 = pr.2.ip) →
      ∀ pr ∈ (gcCollectGo env ids st opts leaks).2.2, pr.1 = pr.2.ip := by
  intro ids
  induction ids with
  | nil => intro st opts leaks h pr hm; exact h pr hm
  | cons i t ih =>
    intro st opts leaks h pr hm
    unfold gcCollectGo at hm
    cases hg : aget st.heap i with
    | none =>
      rw [hg] at hm
      exact ih _ _ _ h pr hm
    | some a =>
      rw [hg] at hm
      dsimp only at hm
      split at hm
      · exact ih _ _ _ h pr hm
      · split at hm
        · exact ih _ _ _ h pr hm
        · have hstep : ∀ pr ∈ aset leaks a.releaseOptions.address a, pr.1 = pr.2.ip := by
            intro pr2 hm2
            rcases mem_aset leaks a.releaseOptions.address a pr2 hm2 with h1 | h1
            · exact h pr2 h1
            · rw [h1]; rfl
          split at hm
          · exact hstep pr hm
          · exact ih _ _ _ hstep pr hm

theorem allocationStateRelease_frame2 (st : Caches) (a : Allocation) :
    (allocationStateRelease st a).allPools = st.allPools ∧
    (allocationStateRelease st a).poolsByBlock = st.poolsByBlock ∧
    (allocationStateRelease st a).reclamationEvents = st.reclamationEvents ∧
    (allocationStateRelease st a).confirmedLeaks = st.confirmedLeaks := by
  unfold allocationStateRelease
  cases aget st.byNode a.node <;> exact ⟨rfl, rfl, rfl, rfl⟩

theorem incrementReclamationMetric_frame (st : Caches) (blk nd : String) :
    (incrementReclamationMetric st blk nd).allPools = st.allPools ∧
    (incrementReclamationMetric st blk nd).poolsByBlock = st.poolsByBlock ∧
    (incrementReclamationMetric st blk nd).confirmedLeaks = st.confirmedLeaks ∧
    (incrementReclamationMetric st blk nd).byNode = st.byNode := by
  unfold incrementReclamationMetric
  dsimp only
  split <;> exact ⟨rfl, rfl, rfl, rfl⟩

theorem incrementReclamationMetric_len (st : Caches) (blk nd : String)
    (hreg : reclamationCounterRegistered st ((aget st.poolsByBlock blk).getD "") = true) :
    (incrementReclamationMetric st blk nd).reclamationEvents.length =
      st.reclamationEvents.length + 1 := by
  unfold incrementReclamationMetric
  dsimp only
  rw [if_pos hreg]
  simp

theorem not_mem_filter_ne_self {α : Type} [DecidableEq α] (l : List α) (a : α) :
    a ∉ l.filter (fun x => decide (x ≠ a)) := by
  intro h
  have := (List.mem_filter.mp h).2
  simp at this

theorem allocationStateRelease_byNode_self (st : Caches) (a : Allocation) :
    a.id ∉ (aget (allocationStateRelease st a).byNode a.node).getD [] := by
  unfold allocationStateRelease
  cases hb : aget st.byNode a.node with
  | none =>
    dsimp only
    rw [hb]
    simp
  | some l =>
    dsimp only
    rw [aget_aset_self]
    simp only [Option.getD_some]
    exact not_mem_filter_ne_self l a.id

theorem allocationStateRelease_byNode_not_mem (st : Caches) (a : Allocation) (n : String)
    (i : AllocId) (h : i ∉ (aget st.byNode n).getD []) :
    i ∉ (aget (allocationStateRelease st a).byNode n).getD [] :=
  fun hmem => h (allocationStateRelease_byNode_mono st a n i hmem)

theorem mem_adel {κ α : Type} [DecidableEq κ] (l : List (κ × α)) (k : κ) :
    ∀ pr ∈ adel l k, pr ∈ l :=
  fun _ h => List.mem_of_mem_filter h

theorem reclamationCounterRegistered_congr (st st2 : Caches) (p : String)
    (h : st2.allPools = st.allPools) :
    reclamationCounterRegistered st2 p = reclamationCounterRegistered st p := by
  unfold reclamationCounterRegistered
  rw [h]

/-- One iteration of the released-options loop (ipam.go 1152-1168):
release from the allocation state, count the reclamation, drop the id from
the confirmed-leak index. `processReleased` performs exactly this step on
each matched option. -/
def gcReleaseStep (st : Caches) (a : Allocation) : Caches :=
  let st1 := allocationStateRelease st a
  let st2 := incrementReclamationMetric st1 a.block a.node
  { st2 with confirmedLeaks := st2.confirmedLeaks.filter (fun x => decide (x ≠ a.id)) }

theorem processReleased_cons (o : ReleaseOptions) (rest : List ReleaseOptions)
    (stM : Caches) (leaks : List (String × Allocation)) (a : Allocation)
    (h : aget leaks o.address = some a) :
    processReleased (o :: rest) stM leaks
      = processReleased rest (gcReleaseStep stM a) (adel leaks o.address) := by
  conv_lhs => rw [processReleased]
  rw [h]
  rfl

theorem gcReleaseStep_spec (stM : Caches) (a : Allocation) :
    (gcReleaseStep stM a).allPools = stM.allPools ∧
    (gcReleaseStep stM a).poolsByBlock = stM.poolsByBlock ∧
    (gcReleaseStep stM a).byNode = (allocationStateRelease stM a).byNode ∧
    (gcReleaseStep stM a).confirmedLeaks
      = stM.confirmedLeaks.filter (fun x => decide (x ≠ a.id)) := by
  unfold gcReleaseStep
  dsimp only
  refine ⟨?_, ?_, ?_, ?_⟩
  · rw [(incrementReclamationMetric_frame _ a.block a.node).1,
        (allocationStateRelease_frame2 stM a).1]
  · rw [(incrementReclamationMetric_frame _ a.block a.node).2.1,
        (allocationStateRelease_frame2 stM a).2.1]
  · rw [(incrementReclamationMetric_frame _ a.block a.node).2.2.2]
  · rw [(incrementReclamationMetric_frame _ a.block a.node).2.2.1,
        (allocationStateRelease_frame2 stM a).2.2.2]

theorem gcReleaseStep_len (stM : Caches) (a : Allocation)
    (hreg : reclamationCounterRegistered stM ((aget stM.poolsByBlock a.block).getD "") = true) :
    (gcReleaseStep stM a).reclamationEvents.length = stM.reclamationEvents.length + 1 := by
  unfold gcReleaseStep
  dsimp only
  have h1 := allocationStateRelease_frame2 stM a
  have hreg1 : reclamationCounterRegistered (allocationStateRelease stM a)
      ((aget (allocationStateRelease stM a).poolsByBlock a.block).getD "") = true := by
    rw [h1.2.1, reclamationCounterRegistered_congr stM _ _ h1.1]
    exact hreg
  rw [incrementReclamationMetric_len _ a.block a.node hreg1, h1.2.2.1]

theorem gcReleaseStep_registered (stM : Caches) (a : Allocation) (p : String) :
    reclamationCounterRegistered (gcReleaseStep stM a) p
      = reclamationCounterRegistered stM p :=
  reclamationCounterRegistered_congr stM _ p (gcReleaseStep_spec stM a).1

theorem gcReleaseStep_byNode_self (stM : Caches) (a : Allocation) :
    a.id ∉ (aget (gcReleaseStep stM a).byNode a.node).getD [] := by
  rw [(gcReleaseStep_spec stM a).2.2.1]
  exact allocationStateRelease_byNode_self stM a

theorem gcReleaseStep_byNode_not_mem (stM : Caches) (a : Allocation) (n : String) (i : AllocId)
    (h : i ∉ (aget stM.byNode n).getD []) :
    i ∉ (aget (gcReleaseStep stM a).byNode n).getD [] := by
  rw [(gcReleaseStep_spec stM a).2.2.1]
  exact allocationStateRelease_byNode_not_mem stM a n i h

theorem gcReleaseStep_confirmed_not_self (stM : Caches) (a : Allocation) :
    a.id ∉ (gcReleaseStep stM a).confirmedLeaks := by
  rw [(gcReleaseStep_spec stM a).2.2.2]
  exact not_mem_filter_ne_self _ _

theorem gcReleaseStep_confirmed_keep (stM : Caches) (a : Allocation) (i : AllocId)
    (hi : i ∈ stM.confirmedLeaks) (hne : a.id ≠ i) :
    i ∈ (gcReleaseStep stM a).confirmedLeaks := by
  rw [(gcReleaseStep_spec stM a).2.2.2]
  exact List.mem_filter.mpr ⟨hi, by simpa using fun he => hne he.symm⟩

theorem gcReleaseStep_confirmed_not_mem (stM : Caches) (a : Allocation) (i : AllocId)
    (h : i ∉ stM.confirmedLeaks) : i ∉ (gcReleaseStep stM a).confirmedLeaks := by
  rw [(gcReleaseStep_spec stM a).2.2.2]
  intro hmem
  exact h (List.mem_filter.mp hmem).1

/-- The released-options loop, specified: assuming each returned option has a
matching collected leak, the returned addresses are distinct, and each
collected leak's pool has a registered counter vector, the loop (a) never
hits the `log.Fatalf` branch, (b) leaves the pool caches alone, (c) appends
exactly one reclamation event per option, (d) removes each matched
allocation from the confirmed-leak set and from its node's allocation
state, and (e) keeps every untouched confirmed-leak id. -/
theorem processReleased_spec :
    ∀ (rel : List ReleaseOptions) (stM : Caches) (leaksM : List (String × Allocation)),
      (∀ o ∈ rel, (aget leaksM o.address).isSome) →
      (rel.map fun o => o.address).Nodup →
      (∀ pr ∈ leaksM,
        reclamationCounterRegistered stM ((aget stM.poolsByBlock pr.2.block).getD "") = true) →
      ∃ st2, processReleased rel stM leaksM = some st2 ∧
        st2.allPools = stM.allPools ∧
        st2.poolsByBlock = stM.poolsByBlock ∧
        st2.reclamationEvents.length = stM.reclamationEvents.length + rel.length ∧
        (∀ o ∈ rel, ∀ a, aget leaksM o.address = some a →
          a.id ∉ st2.confirmedLeaks ∧ a.id ∉ (aget st2.byNode a.node).getD []) ∧
        (∀ i, i ∈ stM.confirmedLeaks →
          (∀ o ∈ rel, ∀ a, aget leaksM o.address = some a → a.id ≠ i) →
          i ∈ st2.confirmedLeaks) ∧
        (∀ i, i ∉ stM.confirmedLeaks → i ∉ st2.confirmedLeaks) ∧
        (∀ n i, i ∉ (aget stM.byNode n).getD [] → i ∉ (aget st2.byNode n).getD []) := by
  intro rel
  induction rel with
  | nil =>
    intro stM leaksM _ _ _
    exact ⟨stM, rfl, rfl, rfl, by simp, fun o ho => absurd ho (by simp),
      fun i hi _ => hi, fun i h => h, fun n i h => h⟩
  | cons o rest ih =>
    intro stM leaksM hsome hnd hreg
    cases hlk : aget leaksM o.address with
    | none =>
      have hs := hsome o (List.mem_cons_self _ _)
      rw [hlk] at hs
      simp at hs
    | some a =>
      have hmem : (o.address, a) ∈ leaksM := aget_mem _ _ _ hlk
      have haddr : o.address ∉ rest.map (fun o2 => o2.address) := by
        have h0 := hnd
        simp only [List.map_cons, List.nodup_cons] at h0
        exact h0.1
      have hnd1 : (rest.map fun o2 => o2.address).Nodup := by
        have h0 := hnd
        simp only [List.map_cons, List.nodup_cons] at h0
        exact h0.2
      have hAddrNe : ∀ o2 ∈ rest, o2.address ≠ o.address := by
        intro o2 ho2 he
        apply haddr
        rw [← he]
        exact List.mem_map.mpr ⟨o2, ho2, rfl⟩
      have hsome1 : ∀ o2 ∈ rest, (aget (adel leaksM o.address) o2.address).isSome := by
        intro o2 ho2
        rw [aget_adel_ne _ _ _ (hAddrNe o2 ho2)]
        exact hsome o2 (List.mem_cons_of_mem _ ho2)
      have hreg1 : ∀ pr ∈ adel leaksM o.address,
          reclamationCounterRegistered (gcReleaseStep stM a)
            ((aget (gcReleaseStep stM a).poolsByBlock pr.2.block).getD "") = true := by
        intro pr hpr
        rw [(gcReleaseStep_spec stM a).2.1, gcReleaseStep_registered]
        exact hreg pr (mem_adel leaksM o.address pr hpr)
      obtain ⟨stF, hF, hFP, hFB, hFL, hFrem, hFkeep, hFmonoC, hFmonoB⟩ :=
        ih (gcReleaseStep stM a) (adel leaksM o.address) hsome1 hnd1 hreg1
      refine ⟨stF, ?_, hFP.trans (gcReleaseStep_spec stM a).1,
        hFB.trans (gcReleaseStep_spec stM a).2.1, ?_, ?_, ?_, ?_, ?_⟩
      · rw [processReleased_cons o rest stM leaksM a hlk]
        exact hF
      · rw [hFL, gcReleaseStep_len stM a (hreg (o.address, a) hmem), List.length_cons]
        omega
      · intro o2 ho2 a2 ha2
        rcases List.mem_cons.mp ho2 with rfl | ho2r
        · rw [hlk] at ha2
          injection ha2 with ha2
          subst ha2
          exact ⟨hFmonoC _ (gcReleaseStep_confirmed_not_self stM a),
            hFmonoB _ _ (gcReleaseStep_byNode_self stM a)⟩
        · have ha2' : aget (adel leaksM o.address) o2.address = some a2 := by
            rw [aget_adel_ne _ _ _ (hAddrNe o2 ho2r)]
            exact ha2
          exact hFrem o2 ho2r a2 ha2'
      · intro i hi hcond
        have hai : a.id ≠ i := hcond o (List.mem_cons_self _ _) a hlk
        apply hFkeep i (gcReleaseStep_confirmed_keep stM a i hi hai)
        intro o2 ho2 a2 ha2
        rw [aget_adel_ne _ _ _ (hAddrNe o2 ho2)] at ha2
        exact hcond o2 (List.mem_cons_of_mem _ ho2) a2 ha2
      · intro i hi
        exact hFmonoC i (gcReleaseStep_confirmed_not_mem stM a i hi)
      · intro n i hi
        exact hFmonoB n i (gcReleaseStep_byNode_not_mem stM a n i hi)

/-- **C3.** When `IPAM.ReleaseIPs` returns a set of released options
together with an error: every allocation whose options were returned is
released from `allocationState`, has its reclamation counter incremented
(one reclamation event is recorded per returned option, given the pool's
counter vector is registered), and is removed from `confirmedLeaks`;
allocations whose options were not returned remain in `confirmedLeaks`;
and `garbageCollectKnownLeaks` returns nil if the error is
`ResourceDoesNotExist` (treated as success) and returns the error
otherwise. -/
theorem claim_c3_release_result_processing (env : Env) (st : Caches)
    (released : List ReleaseOptions) (err : Option CErr)
    (hne : (gcCollect env st).2.1 ≠ [])
    (hrel : env.releaseIPs (gcCollect env st).2.1 = (released, err))
    (hsub : ∀ o ∈ released, (aget (gcCollect env st).2.2 o.address).isSome)
    (hnodup : (released.map fun o => o.address).Nodup)
    (hreg : ∀ pr ∈ (gcCollect env st).2.2,
      reclamationCounterRegistered (gcCollect env st).1
        ((aget (gcCollect env st).1.poolsByBlock pr.2.block).getD "") = true) :
    ∃ st2,
      garbageCollectKnownLeaks env st = some (st2,
        match err with
        | none => none
        | some e => if e.isResourceDoesNotExist then none else some e) ∧
      (∀ o ∈ released, ∀ a, aget (gcCollect env st).2.2 o.address = some a →
        a.ip = o.address ∧
        a.id ∉ st2.confirmedLeaks ∧
        a.id ∉ (aget st2.byNode a.node).getD []) ∧
      st2.reclamationEvents.length
        = (gcCollect env st).1.reclamationEvents.length + released.length ∧
      (∀ i, i ∈ (gcCollect env st).1.confirmedLeaks →
        (∀ o ∈ released, ∀ a, aget (gcCollect env st).2.2 o.address = some a → a.id ≠ i) →
        i ∈ st2.confirmedLeaks) := by
  obtain ⟨st2, hP, _, _, hLen, hRem, hKeep, _, _⟩ :=
    processReleased_spec released (gcCollect env st).1 (gcCollect env st).2.2
      hsub hnodup hreg
  refine ⟨st2, ?_, ?_, hLen, hKeep⟩
  · have hni : (gcCollect env st).2.1.isEmpty = false := by
      cases hcol : (gcCollect env st).2.1 with
      | nil => exact absurd hcol hne
      | cons x xs => rfl
    have hnc : ¬ ((gcCollect env st).2.1.isEmpty = true) := by
      rw [hni]
      simp
    simp only [garbageCollectKnownLeaks]
    rw [hrel]
    dsimp only
    rw [if_neg hnc, hP]
  · intro o ho a ha
    refine ⟨?_, hRem o ho a ha⟩
    have hprm : (o.address, a) ∈ (gcCollect env st).2.2 := aget_mem _ _ _ ha
    have := gcCollectGo_leaks_addr env st.confirmedLeaks st [] []
      (fun pr h => absurd h (by simp)) (o.address, a) hprm
    exact this.symm

/-- A second confirmed leak on the same block under its own handle. -/
def aGC3 : Allocation := { aGC with ip := "10.0.0.3", handle := "h3" }

/-- Two collected leaks whose block's pool has a registered counter. -/
def cachesW3 : Caches :=
  { emptyCaches with
    confirmedLeaks := [aGC.id, aGC3.id]
    heap := [(aGC.id, aGC), (aGC3.id, aGC3)]
    handleAllocs := [("h1", [aGC.id]), ("h3", [aGC3.id])]
    allPools := ["pool-a"]
    poolsByBlock := [("10.0.0.0/26", "pool-a")] }

/-- Environment where both leaked pods are gone and `ReleaseIPs` reports
only the first option as released, together with a transient error. -/
def envW3 : Env :=
  { envGCfail with
    releaseIPs := fun opts => (opts.take 1, some (.otherErr "transient")) }

/-- Witness for C3: at the concrete two-leak state, the released allocation
is removed from the allocation state and `confirmedLeaks` with one
reclamation event, the unreleased one remains confirmed, and the transient
error is returned. -/
theorem claim_c3_witness :
    ∃ st2,
      garbageCollectKnownLeaks envW3 cachesW3
        = some (st2, some (CErr.otherErr "transient")) ∧
      (∀ o ∈ [aGC.releaseOptions], ∀ a,
        aget (gcCollect envW3 cachesW3).2.2 o.address = some a →
        a.ip = o.address ∧
        a.id ∉ st2.confirmedLeaks ∧
        a.id ∉ (aget st2.byNode a.node).getD []) ∧
      st2.reclamationEvents.length
        = (gcCollect envW3 cachesW3).1.reclamationEvents.length + 1 ∧
      (∀ i, i ∈ (gcCollect envW3 cachesW3).1.confirmedLeaks →
        (∀ o ∈ [aGC.releaseOptions], ∀ a,
          aget (gcCollect envW3 cachesW3).2.2 o.address = some a → a.id ≠ i) →
        i ∈ st2.confirmedLeaks) :=
  claim_c3_release_result_processing envW3 cachesW3 [aGC.releaseOptions]
    (some (.otherErr "transient")) (by decide) (by decide) (by decide)
    (by decide) (by decide)

end CalicoIpam
